import Mathlib

/-!
Shallow embedding of the local-directory synchronization engine
(`useLocalSync` composable, together with the VFS collaborator surface it
consumes: `collectVfsPaths`, `readFileAsBuffer`, `writeFile`, `fileExists`,
`mkdir`).

Modelling conventions:
* Byte buffers are `List Nat`; `fnv1a` is the FNV-1a hash with arithmetic
  taken mod 2^32 (JS `Math.imul` and `>>> 0` both reduce mod 2^32).
* JS `Map` objects become association lists (`SMap`) with `mset` replacing
  the first binding in place (as `Map.set` does) and `mdel` removing it.
* The VFS is keyed by relative path.  The source prefixes every VFS path
  with `/app/` before calling the collaborator and strips the prefix on
  enumeration; the round trip is the identity, so the embedding works with
  relative paths directly.  The `mkdir`/`fileExists` parent-directory loop
  only creates directories, which a flat map does not represent.
* Timestamps: each local write stamps the file with a fresh value drawn
  from a monotonically increasing `clock` field, mirroring `lastModified`.
* Fault injection: every collaborator call that can throw in the source is
  guarded by a `FaultModel` entry giving the thrown error name, `none`
  meaning success.  `collectVfsPaths` swallows its own enumeration errors
  internally (try/catch around `listFiles` in the PHP composable), so it
  never throws; the only pass-level throw source is the local walk
  `collectLocalPaths` (directory handle enumeration).
* `stateLog` is a ghost field recording every assignment to `syncState`
  in order, so that observable state transitions can be stated.
* The UI-only refs `syncStatus` and `syncProgress`, and the `seen` set
  that the poller builds but never reads (no local-deletion sync in v1),
  are not modelled: no claim refers to them.
-/

/-- FNV-1a inner step: xor in one byte, multiply by the 32-bit FNV prime,
reduce mod 2^32 (the JS code uses `Math.imul` and a final `>>> 0`). -/
def fnv1aStep (hash byte : Nat) : Nat :=
  ((Nat.xor hash byte) * 0x01000193) % 4294967296

/-- FNV-1a hash of a byte list, as in the source `fnv1a`. -/
def fnv1a (data : List Nat) : Nat :=
  data.foldl fnv1aStep 0x811c9dc5

/-- The fixed exclusion set `SKIP_DIRS` from the source. -/
def SKIP_DIRS : List String := ["vendor", "node_modules", ".git"]

/-- First `/`-segment of a path: the longest prefix before a `/`,
which is what `relativePath.split('/')[0]` yields in JS. -/
def firstSegment (s : String) : String :=
  (s.data.takeWhile (fun c => c ≠ '/')).asString

/-- `shouldSkip`: true iff the first `/`-segment of the path is in
`SKIP_DIRS` (source: `relativePath.split('/')[0]`). -/
def shouldSkip (relativePath : String) : Bool :=
  SKIP_DIRS.contains (firstSegment relativePath)

/-- Association-list rendering of a JS `Map` keyed by strings. -/
abbrev SMap (β : Type) := List (String × β)

/-- `Map.get`: first binding of the key, if any. -/
def mlookup {β : Type} : SMap β → String → Option β
  | [], _ => none
  | (k, v) :: rest, j => if k = j then some v else mlookup rest j

/-- `Map.set`: replace the first binding in place, else append. -/
def mset {β : Type} : SMap β → String → β → SMap β
  | [], k, v => [(k, v)]
  | (k', v') :: rest, k, v =>
      if k' = k then (k, v) :: rest else (k', v') :: mset rest k v

/-- `Map.delete`: drop every binding of the key. -/
def mdel {β : Type} (m : SMap β) (k : String) : SMap β :=
  m.filter (fun e => e.1 ≠ k)

/-- The `SyncState` union type of the source. -/
inductive SyncState
  | disconnected
  | syncingInitial
  | connected
  | error
deriving DecidableEq, Repr

/-- A file in the granted local directory: its `lastModified` stamp and
its byte content. -/
structure LocalFile where
  lastModified : Nat
  content : List Nat
deriving DecidableEq, Repr

/-- The module-level mutable state of the sync composable, plus the two
stores it mediates between.  `stateLog` is a ghost trace of `syncState`
assignments. -/
structure SyncWorld where
  isSupported : Bool
  vfs : SMap (List Nat)
  localStore : SMap LocalFile
  vfsSnapshot : SMap Nat
  localSnapshot : SMap Nat
  syncState : SyncState
  syncError : String
  syncLock : Bool
  hasHandle : Bool
  pollerRunning : Bool
  watcherRunning : Bool
  clock : Nat
  stateLog : List SyncState
deriving DecidableEq, Repr

/-- Assignment to `syncState.value`, recorded in the ghost trace. -/
def setState (w : SyncWorld) (s : SyncState) : SyncWorld :=
  { w with syncState := s, stateLog := w.stateLog ++ [s] }

/-- Outcomes of the collaborator calls that can throw, per path: `none`
is success, `some name` a thrown error with that `err.name`. -/
structure FaultModel where
  enumLocalFault : Option String
  readLocalFault : String → Option String
  writeLocalFault : String → Option String
  readVfsFault : String → Option String
  writeVfsFault : String → Option String
  removeLocalFault : String → Option String

/-- The fault model in which every operation succeeds. -/
def noFaults : FaultModel :=
  { enumLocalFault := none
    readLocalFault := fun _ => none
    writeLocalFault := fun _ => none
    readVfsFault := fun _ => none
    writeVfsFault := fun _ => none
    removeLocalFault := fun _ => none }

/-- The permission-revocation test of `handleFsError`. -/
def isPermissionError (name : String) : Bool :=
  name = "NotAllowedError" || name = "SecurityError"

/-- `handleFsError`: on a permission error, set state `error`, record the
message, and run `cleanupWatchers` (stop poller and VFS watcher);
otherwise do nothing. -/
def handleFsError (w : SyncWorld) (name : String) : SyncWorld :=
  if isPermissionError name then
    { setState w .error with
        syncError := "Permission to access the folder was revoked."
        pollerRunning := false
        watcherRunning := false }
  else w

/-- Result of `collectLocalPaths(directoryHandle)` on the flat store
model: every stored path with its timestamp.  The tree-level walk with
its nested directory pruning is modelled separately by
`collectLocalPaths` below; on a store without nested excluded
directories the two coincide. -/
def localEnumeration (w : SyncWorld) : List (String × Nat) :=
  w.localStore.map (fun e => (e.1, e.2.lastModified))

/-- One iteration of the `initialSync` phase-1 loop (local → VFS) for an
enumerated `(path, lastModified)` entry: read the local file, hash it,
write it into the VFS, record both snapshot entries; any per-path throw
is caught and logged. -/
def initSyncLocalStep (fm : FaultModel) (w : SyncWorld) (e : String × Nat) :
    SyncWorld :=
  match fm.readLocalFault e.1 with
  | some _ => w
  | none =>
    match mlookup w.localStore e.1 with
    | none => w
    | some f =>
      match fm.writeVfsFault e.1 with
      | some _ => w
      | none =>
        { w with
            vfs := mset w.vfs e.1 f.content
            vfsSnapshot := mset w.vfsSnapshot e.1 (fnv1a f.content)
            localSnapshot := mset w.localSnapshot e.1 e.2 }

/-- One iteration of the `initialSync` phase-2 loop (VFS → local) for a
VFS path: skipped when the local side already had it; otherwise read the
VFS bytes, write them locally, set `vfsSnapshot`, then re-read the local
file for its timestamp and set `localSnapshot`; per-path throws are
caught and logged. -/
def initSyncVfsStep (fm : FaultModel) (localPathSet : List String)
    (w : SyncWorld) (rel : String) : SyncWorld :=
  if localPathSet.contains rel then w
  else
    match fm.readVfsFault rel with
    | some _ => w
    | none =>
      match mlookup w.vfs rel with
      | none => w
      | some content =>
        match fm.writeLocalFault rel with
        | some _ => w
        | none =>
          let lm := w.clock
          let w1 := { w with
                        localStore := mset w.localStore rel ⟨lm, content⟩
                        clock := w.clock + 1
                        vfsSnapshot := mset w.vfsSnapshot rel (fnv1a content) }
          match fm.readLocalFault rel with
          | some _ => w1
          | none => { w1 with localSnapshot := mset w1.localSnapshot rel lm }

/-- `initialSync`: set state `syncing-initial`, enumerate both sides
(the local walk may throw, aborting the pass; the VFS walk swallows its
own errors), run phase 1 over the filtered local files and phase 2 over
the VFS-only paths.  Returns the world together with the name of a
thrown error when the pass aborted. -/
def initialSyncRun (fm : FaultModel) (w : SyncWorld) :
    SyncWorld × Option String :=
  let w0 := setState w .syncingInitial
  match fm.enumLocalFault with
  | some e => (w0, some e)
  | none =>
    let localFiles := localEnumeration w0
    let vfsPaths := (w0.vfs.map Prod.fst).filter (fun p => !shouldSkip p)
    let localFiltered := localFiles.filter (fun f => !shouldSkip f.1)
    let localPathSet := localFiltered.map Prod.fst
    let w1 := localFiltered.foldl (initSyncLocalStep fm) w0
    let w2 := vfsPaths.foldl (initSyncVfsStep fm localPathSet) w1
    (w2, none)

/-- Writes and removals performed by one steady-state pass, in order. -/
structure PassLog where
  localWrites : List String
  vfsWrites : List String
  localRemovals : List String
deriving DecidableEq, Repr

/-- The empty pass log. -/
def emptyLog : PassLog := ⟨[], [], []⟩

/-- One iteration of the `pushVfsToLocal` per-path loop: policy filter,
`currentFiles` accumulation, read + hash, fingerprint short-circuit,
local write, snapshot updates; any per-path throw is caught and logged. -/
def vfsPassStep (fm : FaultModel) :
    SyncWorld × PassLog × List String → String →
    SyncWorld × PassLog × List String
  | (w, log, cur), rel =>
    if shouldSkip rel then (w, log, cur)
    else
      let cur1 := cur ++ [rel]
      match fm.readVfsFault rel with
      | some _ => (w, log, cur1)
      | none =>
        match mlookup w.vfs rel with
        | none => (w, log, cur1)
        | some content =>
          let hash := fnv1a content
          if mlookup w.vfsSnapshot rel = some hash then (w, log, cur1)
          else
            match fm.writeLocalFault rel with
            | some _ => (w, log, cur1)
            | none =>
              let lm := w.clock
              let w1 := { w with
                            localStore := mset w.localStore rel ⟨lm, content⟩
                            clock := w.clock + 1
                            vfsSnapshot := mset w.vfsSnapshot rel hash }
              let log1 := { log with localWrites := log.localWrites ++ [rel] }
              match fm.readLocalFault rel with
              | some _ => (w1, log1, cur1)
              | none =>
                  ({ w1 with localSnapshot := mset w1.localSnapshot rel lm },
                   log1, cur1)

/-- One iteration of the `pushVfsToLocal` deletion loop over the keys of
`vfsSnapshot`: a key absent from `currentFiles` has its local entry
removed (`removeLocalEntry` swallows its own errors) and is purged from
both snapshot maps. -/
def vfsDeleteStep (fm : FaultModel) (cur : List String) :
    SyncWorld × PassLog → String → SyncWorld × PassLog
  | (w, log), rel =>
    if cur.contains rel then (w, log)
    else
      let (w1, log1) :=
        match fm.removeLocalFault rel with
        | some _ => (w, log)
        | none =>
            ({ w with localStore := mdel w.localStore rel },
             { log with localRemovals := log.localRemovals ++ [rel] })
      ({ w1 with
           vfsSnapshot := mdel w1.vfsSnapshot rel
           localSnapshot := mdel w1.localSnapshot rel }, log1)

/-- `pushVfsToLocal`: the VFS → local steady-state pass.  Returns early
when a pass is in flight or no session is connected; otherwise acquires
`syncLock`, walks the VFS (the VFS walk never throws — the PHP-side
`collectVfsPaths` catches enumeration errors itself), runs the per-path
loop and the deletion loop, and releases the lock in `finally`. -/
def pushVfsToLocal (fm : FaultModel) (w : SyncWorld) : SyncWorld × PassLog :=
  if w.syncLock || !w.hasHandle then (w, emptyLog)
  else
    let wL := { w with syncLock := true }
    let allPaths := wL.vfs.map Prod.fst
    let r1 := allPaths.foldl (vfsPassStep fm) (wL, emptyLog, [])
    let keys := r1.1.vfsSnapshot.map Prod.fst
    let r2 := keys.foldl (vfsDeleteStep fm r1.2.2) (r1.1, r1.2.1)
    ({ r2.1 with syncLock := false }, r2.2)

/-- One iteration of the local-poller per-path loop: policy filter,
timestamp short-circuit, read + hash, echo suppression (fingerprint
match updates only `localSnapshot`), VFS write and snapshot updates; any
per-path throw is caught and logged. -/
def pollPassStep (fm : FaultModel) :
    SyncWorld × PassLog → String × Nat → SyncWorld × PassLog
  | (w, log), e =>
    if shouldSkip e.1 then (w, log)
    else if mlookup w.localSnapshot e.1 = some e.2 then (w, log)
    else
      match fm.readLocalFault e.1 with
      | some _ => (w, log)
      | none =>
        match mlookup w.localStore e.1 with
        | none => (w, log)
        | some f =>
          let hash := fnv1a f.content
          if mlookup w.vfsSnapshot e.1 = some hash then
            ({ w with localSnapshot := mset w.localSnapshot e.1 e.2 }, log)
          else
            match fm.writeVfsFault e.1 with
            | some _ => (w, log)
            | none =>
                ({ w with
                     vfs := mset w.vfs e.1 f.content
                     vfsSnapshot := mset w.vfsSnapshot e.1 hash
                     localSnapshot := mset w.localSnapshot e.1 e.2 },
                 { log with vfsWrites := log.vfsWrites ++ [e.1] })

/-- One tick of the `startLocalPoller` interval callback: return early
when locked or disconnected; acquire `syncLock`; the local walk may
throw, reaching `handleFsError`; otherwise run the per-path loop (no
local → VFS deletion sync); release the lock in `finally`. -/
def runLocalPoll (fm : FaultModel) (w : SyncWorld) : SyncWorld × PassLog :=
  if w.syncLock || !w.hasHandle then (w, emptyLog)
  else
    let wL := { w with syncLock := true }
    match fm.enumLocalFault with
    | some e => ({ handleFsError wL e with syncLock := false }, emptyLog)
    | none =>
      let files := localEnumeration wL
      let r := files.foldl (pollPassStep fm) (wL, emptyLog)
      ({ r.1 with syncLock := false }, r.2)

/-- Outcome of `window.showDirectoryPicker()`: a handle, or a rejection
with the given `err.name` (`"AbortError"` for user cancellation). -/
inductive PickerResult
  | ok
  | err (name : String)

/-- `connect`: unsupported platforms return immediately; a picker
rejection returns silently on `AbortError` and otherwise sets state
`error`; on success the handle is stored, the error banner cleared, and
`initialSync` runs — an abort there sets state `error`, records the
message and drops the handle, while success starts the watcher and the
poller and sets state `connected`. -/
def connect (fm : FaultModel) (pr : PickerResult) (w : SyncWorld) :
    SyncWorld :=
  if !w.isSupported then w
  else
    match pr with
    | .err name =>
        if name = "AbortError" then w
        else { setState w .error with syncError := name }
    | .ok =>
        let w1 := { w with hasHandle := true, syncError := "" }
        match initialSyncRun fm w1 with
        | (w2, some msg) =>
            { setState w2 .error with syncError := msg, hasHandle := false }
        | (w2, none) =>
            let w3 := { w2 with watcherRunning := true, pollerRunning := true }
            setState w3 .connected

/-- `disconnect`: stop both loops, drop the handle, clear both snapshot
maps and the lock, and reset the published state. -/
def disconnect (w : SyncWorld) : SyncWorld :=
  let w1 := { w with
                pollerRunning := false
                watcherRunning := false
                hasHandle := false
                vfsSnapshot := []
                localSnapshot := []
                syncLock := false }
  { setState w1 .disconnected with syncError := "" }

/-- The operations that drive the lifecycle state machine. -/
inductive SyncOp
  | connectOp (fm : FaultModel) (pr : PickerResult)
  | disconnectOp
  | vfsPassOp (fm : FaultModel)
  | pollPassOp (fm : FaultModel)

/-- Run one operation against the world. -/
def opStep (w : SyncWorld) : SyncOp → SyncWorld
  | .connectOp fm pr => connect fm pr w
  | .disconnectOp => disconnect w
  | .vfsPassOp fm => (pushVfsToLocal fm w).1
  | .pollPassOp fm => (runLocalPoll fm w).1

/-- Consecutive pairs of a state followed by a list of states. -/
def chainPairs : SyncState → List SyncState → List (SyncState × SyncState)
  | _, [] => []
  | s, t :: ts => (s, t) :: chainPairs t ts

/-- The observable `syncState` transitions produced by one operation. -/
def opTransitions (w : SyncWorld) (o : SyncOp) :
    List (SyncState × SyncState) :=
  chainPairs w.syncState (opStep w o).stateLog

/-- The transition relation listed by the specification. -/
def specAllowed : SyncState × SyncState → Bool
  | (.disconnected, .syncingInitial) => true
  | (.syncingInitial, .connected) => true
  | (.syncingInitial, .error) => true
  | (.connected, .error) => true
  | (.error, .syncingInitial) => true
  | (.connected, .disconnected) => true
  | (.error, .disconnected) => true
  | _ => false

/-- The transition relation the code actually admits: `error`,
`syncing-initial` and `disconnected` are enterable from any state
(picker or pass failure, connect invoked in any state, disconnect from
any state), and `connected` only from `syncing-initial`. -/
def codeAllowed (t : SyncState × SyncState) : Bool :=
  match t.2 with
  | .error => true
  | .syncingInitial => true
  | .disconnected => true
  | .connected =>
      match t.1 with
      | .syncingInitial => true
      | _ => false

/-- A directory tree as seen through the local directory handle. -/
inductive FsTree
  | file (lastModified : Nat) (content : List Nat)
  | dir (entries : List (String × FsTree))

/-- The entry loop of `collectLocalPaths`: files are reported with their
timestamp; directories whose name is in `SKIP_DIRS` are pruned at every
depth, all others are recursed into with an extended prefix. -/
def collectEntries : List (String × FsTree) → String → List (String × Nat)
  | [], _ => []
  | (name, .file lm _) :: rest, pre =>
      (if pre = "" then name else pre ++ "/" ++ name, lm) ::
        collectEntries rest pre
  | (name, .dir es) :: rest, pre =>
      (if SKIP_DIRS.contains name then []
       else collectEntries es (if pre = "" then name else pre ++ "/" ++ name))
      ++ collectEntries rest pre

/-- `collectLocalPaths`: recursive walk of the granted directory. -/
def collectLocalPaths : FsTree → String → List (String × Nat)
  | .file _ _, _ => []
  | .dir es, pre => collectEntries es pre

/-- Event-level abstraction of the `syncLock` discipline shared by both
passes: a pass begins only after observing the flag clear and setting
it; `finally` clears it.  `inFlight` counts running passes, `started`
counts passes that ever began. -/
structure LockState where
  syncLock : Bool
  inFlight : Nat
  started : Nat
deriving DecidableEq, Repr

/-- A debounce-timer or poll-tick firing (`trigger`) or a running pass
reaching its `finally` (`finish`). -/
inductive LockEvent
  | trigger
  | finish
deriving DecidableEq, Repr

/-- One event against the lock state: a trigger while locked returns
immediately leaving no record; a trigger while unlocked starts a pass. -/
def lockStep : LockState → LockEvent → LockState
  | s, .trigger =>
      if s.syncLock then s
      else { syncLock := true, inFlight := s.inFlight + 1,
             started := s.started + 1 }
  | s, .finish => { s with syncLock := false, inFlight := s.inFlight - 1 }

/-- Run a list of lock events from the idle initial state. -/
def lockRun (es : List LockEvent) : LockState :=
  es.foldl lockStep ⟨false, 0, 0⟩

/-- The mutual-exclusion invariant of the lock discipline. -/
def LockInv (s : LockState) : Prop :=
  s.inFlight ≤ 1 ∧ (s.syncLock = false → s.inFlight = 0)

/-- A world with no session and empty stores, as after module load. -/
def baseWorld : SyncWorld :=
  { isSupported := true
    vfs := []
    localStore := []
    vfsSnapshot := []
    localSnapshot := []
    syncState := .disconnected
    syncError := ""
    syncLock := false
    hasHandle := false
    pollerRunning := false
    watcherRunning := false
    clock := 0
    stateLog := [] }

/-- A connected world with a live session: handle held, both loops
running, lock free. -/
def connectedWorld : SyncWorld :=
  { baseWorld with
      syncState := .connected
      hasHandle := true
      pollerRunning := true
      watcherRunning := true }

/-- Control-plane fields of the world that the per-path loops never
touch: published state, ghost trace, error banner, loop handles, the
directory handle and the platform flag. -/
def ctrlEq (a b : SyncWorld) : Prop :=
  a.syncState = b.syncState ∧ a.stateLog = b.stateLog ∧
  a.syncError = b.syncError ∧ a.pollerRunning = b.pollerRunning ∧
  a.watcherRunning = b.watcherRunning ∧ a.hasHandle = b.hasHandle ∧
  a.isSupported = b.isSupported ∧ a.syncLock = b.syncLock

/-- C1 counterexample input: one local file whose read fails. -/
def c1CexWorld : SyncWorld :=
  { baseWorld with localStore := [("a.txt", ⟨1, [7]⟩)] }

/-- C1 counterexample faults: reading `a.txt` locally throws. -/
def c1CexFaults : FaultModel :=
  { noFaults with
      readLocalFault := fun p => if p = "a.txt" then some "NotFoundError" else none }

/-- C1 witness input: a world carrying a stale snapshot entry from an
earlier session. -/
def c1WitWorld : SyncWorld :=
  { baseWorld with vfsSnapshot := [("stale.txt", 42)], localSnapshot := [("stale.txt", 3)] }

/-- C1 witness faults: the local directory walk itself throws. -/
def c1WitFaults : FaultModel :=
  { noFaults with enumLocalFault := some "NotReadableError" }

/-- C2 counterexample input: a connected session with one changed VFS
file pending propagation. -/
def c2CexWorld : SyncWorld :=
  { connectedWorld with vfs := [("a.txt", [1])], vfsSnapshot := [("a.txt", 999)] }

/-- C2 counterexample faults: the local write of `a.txt` throws a
permission error. -/
def c2CexFaults : FaultModel :=
  { noFaults with
      writeLocalFault := fun p => if p = "a.txt" then some "NotAllowedError" else none }

/-- C2 witness faults: the local directory walk throws a permission
error. -/
def c2WitFaults : FaultModel :=
  { noFaults with enumLocalFault := some "NotAllowedError" }

/-- C3 witness input: overlapping path `a.txt` (local and VFS copies
differ) and VFS-only path `b.txt`. -/
def c3WitWorld : SyncWorld :=
  { baseWorld with
      hasHandle := true
      localStore := [("a.txt", ⟨5, [108]⟩)]
      vfs := [("a.txt", [118]), ("b.txt", [98])] }

/-- C4 witness input: `b.txt` known to both snapshot maps and present
locally, but gone from the VFS. -/
def c4WitWorld : SyncWorld :=
  { connectedWorld with
      localStore := [("b.txt", ⟨3, [98]⟩)]
      vfsSnapshot := [("b.txt", 7)]
      localSnapshot := [("b.txt", 3)] }

/-- C5 witness input: `a.txt` touched locally (new timestamp 9, recorded
5) with content identical to what the VFS already holds. -/
def c5WitWorld : SyncWorld :=
  { connectedWorld with
      localStore := [("a.txt", ⟨9, [120]⟩)]
      vfs := [("a.txt", [120])]
      vfsSnapshot := [("a.txt", fnv1a [120])]
      localSnapshot := [("a.txt", 5)] }

/-- C6 witness input: a fully synchronized world in which both snapshot
maps agree with both stores. -/
def c6WitWorld : SyncWorld :=
  { connectedWorld with
      localStore := [("a.txt", ⟨9, [120]⟩)]
      vfs := [("a.txt", [120])]
      vfsSnapshot := [("a.txt", fnv1a [120])]
      localSnapshot := [("a.txt", 9)] }

/-- C8 counterexample input: a session mid-pass (`syncLock` held) with a
VFS change pending. -/
def c8CexWorld : SyncWorld :=
  { connectedWorld with syncLock := true, vfs := [("a.txt", [1])] }

/-- C8 witness input: a locked session observed by the poll tick. -/
def c8WitWorld : SyncWorld :=
  { connectedWorld with syncLock := true, localStore := [("b.txt", ⟨1, [2]⟩)] }

/-- C9 counterexample tree: `src/node_modules/x.js` on the local disk. -/
def c9CexTree : FsTree :=
  .dir [("src", .dir [("node_modules", .dir [("x.js", .file 1 [42])])])]

/-- C9 counterexample world: the same nested path on the VFS side. -/
def c9CexWorld : SyncWorld :=
  { connectedWorld with vfs := [("src/node_modules/x.js", [42])] }

/-- C9 witness input: a first-segment-excluded VFS path. -/
def c9WitWorld : SyncWorld :=
  { connectedWorld with vfs := [("vendor/x.php", [1])] }

/-! ## Map lemmas -/

theorem mlookup_mset_self {β : Type} (m : SMap β) (k : String) (v : β) :
    mlookup (mset m k v) k = some v := by
  induction m with
  | nil => simp [mset, mlookup]
  | cons e rest ih =>
      obtain ⟨k', v'⟩ := e
      by_cases h : k' = k
      · subst h; simp [mset, mlookup]
      · simp [mset, mlookup, h, ih]

theorem mlookup_mset_ne {β : Type} (m : SMap β) (k j : String) (v : β)
    (h : k ≠ j) : mlookup (mset m k v) j = mlookup m j := by
  induction m with
  | nil => simp [mset, mlookup, h]
  | cons e rest ih =>
      obtain ⟨k', v'⟩ := e
      by_cases h' : k' = k
      · subst h'; simp [mset, mlookup, h]
      · simp [mset, mlookup, h', ih]

theorem mlookup_mdel_self {β : Type} (m : SMap β) (k : String) :
    mlookup (mdel m k) k = none := by
  induction m with
  | nil => simp [mdel, mlookup]
  | cons e rest ih =>
      obtain ⟨k', v'⟩ := e
      by_cases h : k' = k
      · subst h; simpa [mdel, mlookup] using ih
      · simpa [mdel, mlookup, h] using ih

theorem mlookup_mdel_ne {β : Type} (m : SMap β) (k j : String)
    (h : k ≠ j) : mlookup (mdel m k) j = mlookup m j := by
  induction m with
  | nil => simp [mdel, mlookup]
  | cons e rest ih =>
      obtain ⟨k', v'⟩ := e
      by_cases h' : k' = k
      · subst h'; simpa [mdel, mlookup, h] using ih
      · by_cases h2 : k' = j
        · subst h2; simp [mdel, mlookup, h', ih]
        · simpa [mdel, mlookup, h', h2] using ih

theorem mlookup_mdel_none {β : Type} (m : SMap β) (k j : String)
    (h : mlookup m j = none) : mlookup (mdel m k) j = none := by
  by_cases h' : k = j
  · subst h'; exact mlookup_mdel_self m k
  · rw [mlookup_mdel_ne m k j h']; exact h

theorem mem_keys_of_mlookup_some {β : Type} (m : SMap β) (k : String)
    (v : β) (h : mlookup m k = some v) : k ∈ m.map Prod.fst := by
  induction m with
  | nil => simp [mlookup] at h
  | cons e rest ih =>
      obtain ⟨k', v'⟩ := e
      by_cases h' : k' = k
      · subst h'; simp
      · simp [mlookup, h'] at h
        simp [ih h]

theorem mem_of_mlookup_some {β : Type} (m : SMap β) (k : String)
    (v : β) (h : mlookup m k = some v) : (k, v) ∈ m := by
  induction m with
  | nil => simp [mlookup] at h
  | cons e rest ih =>
      obtain ⟨k', v'⟩ := e
      by_cases h' : k' = k
      · subst h'
        simp [mlookup] at h
        simp [h]
      · simp [mlookup, h'] at h
        simp [ih h]

theorem mlookup_none_of_not_mem_keys {β : Type} (m : SMap β) (k : String)
    (h : k ∉ m.map Prod.fst) : mlookup m k = none := by
  induction m with
  | nil => rfl
  | cons e rest ih =>
      obtain ⟨k', v'⟩ := e
      rw [List.map_cons] at h
      simp only [List.mem_cons, not_or] at h
      have hk : k' ≠ k := fun heq => h.1 heq.symm
      simp [mlookup, hk, ih h.2]

theorem not_mem_keys_of_mlookup_none {β : Type} (m : SMap β) (k : String)
    (h : mlookup m k = none) : k ∉ m.map Prod.fst := by
  induction m with
  | nil => simp
  | cons e rest ih =>
      obtain ⟨k', v'⟩ := e
      rw [List.map_cons]
      simp only [List.mem_cons, not_or]
      unfold mlookup at h
      by_cases h' : k' = k
      · simp [h'] at h
      · exact ⟨fun heq => h' heq.symm, ih (by simpa [h'] using h)⟩

theorem mlookup_some_of_mem_keys {β : Type} (m : SMap β) (k : String)
    (h : k ∈ m.map Prod.fst) : ∃ v, mlookup m k = some v := by
  cases hm : mlookup m k with
  | none => exact absurd h (not_mem_keys_of_mlookup_none m k hm)
  | some v => exact ⟨v, rfl⟩

theorem mlookup_of_mem_nodup {β : Type} (m : SMap β) (k : String) (v : β)
    (hnd : (m.map Prod.fst).Nodup) (hmem : (k, v) ∈ m) :
    mlookup m k = some v := by
  induction m with
  | nil => simp at hmem
  | cons e rest ih =>
      obtain ⟨k', v'⟩ := e
      rw [List.map_cons] at hnd
      have hnd' := List.nodup_cons.mp hnd
      rcases List.mem_cons.mp hmem with heq | hmem'
      · cases heq
        simp [mlookup]
      · have hk : k' ≠ k := by
          intro heq
          apply hnd'.1
          rw [heq]
          exact List.mem_map.mpr ⟨(k, v), hmem', rfl⟩
        simp [mlookup, hk, ih hnd'.2 hmem']

/-! ## Generic fold invariant lemma -/

theorem foldl_preserve {α β : Type} (f : β → α → β) (P : β → Prop)
    (l : List α) (b : β) (hb : P b)
    (hf : ∀ b a, a ∈ l → P b → P (f b a)) : P (l.foldl f b) := by
  induction l generalizing b with
  | nil => exact hb
  | cons a t ih =>
      exact ih (f b a) (hf b a (by simp) hb)
        (fun b' a' ha' hb' => hf b' a' (by simp [ha']) hb')

theorem exists_split_of_mem_nodup {β : Type} (m : List (String × β))
    (k : String) (v : β) (hmem : (k, v) ∈ m)
    (hnd : (m.map Prod.fst).Nodup) :
    ∃ A B, m = A ++ (k, v) :: B ∧ (∀ e ∈ A, e.1 ≠ k) ∧ ∀ e ∈ B, e.1 ≠ k := by
  induction m with
  | nil => simp at hmem
  | cons e rest ih =>
      obtain ⟨k', v'⟩ := e
      rw [List.map_cons] at hnd
      have hnd' := List.nodup_cons.mp hnd
      rcases List.mem_cons.mp hmem with heq | hmem'
      · cases heq
        refine ⟨[], rest, by simp, by simp, ?_⟩
        intro e he heq2
        apply hnd'.1
        rw [← heq2]
        exact List.mem_map.mpr ⟨e, he, rfl⟩
      · obtain ⟨A, B, hAB, hA, hB⟩ := ih hmem' hnd'.2
        refine ⟨(k', v') :: A, B, by simp [hAB], ?_, hB⟩
        intro e he
        rcases List.mem_cons.mp he with heq | he'
        · cases heq
          intro heq2
          apply hnd'.1
          rw [heq2]
          exact List.mem_map.mpr ⟨(k, v), hmem', rfl⟩
        · exact hA e he'

/-! ## C10: picker cancellation -/

/-- C10: if the user cancels the directory picker (`AbortError`),
`connect()` returns with the entire sync world unchanged — the state
stays `disconnected` (not `error`) when it was disconnected, no error
message is recorded, no handle is retained, the snapshot maps and loop
handles are untouched. -/
theorem connect_abort_leaves_state_unchanged (fm : FaultModel)
    (w : SyncWorld) : connect fm (.err "AbortError") w = w := by
  unfold connect
  cases hs : w.isSupported <;> simp [hs]

/-! ## C8: pass serialization via the sync lock -/

theorem lockStep_inv (s : LockState) (e : LockEvent) (h : LockInv s) :
    LockInv (lockStep s e) := by
  obtain ⟨h1, h2⟩ := h
  cases e with
  | trigger =>
      unfold lockStep
      by_cases hl : s.syncLock
      · simp [hl]
        exact ⟨h1, h2⟩
      · simp [hl]
        have h0 : s.inFlight = 0 := h2 (by simpa using hl)
        refine ⟨?_, ?_⟩
        · show s.inFlight + 1 ≤ 1
          omega
        · intro h
          simp at h
  | finish =>
      unfold lockStep
      refine ⟨?_, ?_⟩
      · show s.inFlight - 1 ≤ 1
        omega
      · intro h
        show s.inFlight - 1 = 0
        omega

theorem lockRun_inv_aux (es : List LockEvent) (s : LockState)
    (h : LockInv s) : LockInv (es.foldl lockStep s) :=
  foldl_preserve lockStep LockInv es s h (fun b a _ hb => lockStep_inv b a hb)

/-- C8 (amended): passes are serialized — in every interleaving of
trigger and finish events at most one pass is ever in flight — but a
trigger observing `syncLock` held is skipped outright: the guarded pass
returns with the world unchanged and no pending-work record, so the
triggered pass is dropped (until some later trigger), not deferred. -/
theorem pass_serialization_lock (es : List LockEvent) :
    (lockRun es).inFlight ≤ 1 ∧
    (∀ fm w, w.syncLock = true →
      pushVfsToLocal fm w = (w, emptyLog) ∧
      runLocalPoll fm w = (w, emptyLog)) := by
  constructor
  · exact (lockRun_inv_aux es ⟨false, 0, 0⟩ ⟨by decide, fun _ => rfl⟩).1
  · intro fm w hw
    constructor
    · unfold pushVfsToLocal
      simp [hw]
    · unfold runLocalPoll
      simp [hw]

/-- C8 witness: the serialization bound on a concrete trace, and a poll
tick skipped because a pass holds the lock. -/
theorem pass_serialization_lock_witness :
    (lockRun [.trigger, .finish, .trigger]).inFlight ≤ 1 ∧
    runLocalPoll noFaults c8WitWorld = (c8WitWorld, emptyLog) :=
  ⟨(pass_serialization_lock [.trigger, .finish, .trigger]).1,
   ((pass_serialization_lock []).2 noFaults c8WitWorld rfl).2⟩

/-- C8 counterexample: a debounce trigger firing while a pass is in
flight is lost, not deferred — after the running pass finishes, only one
pass has ever started and nothing is pending; concretely the triggered
VFS → local pass returns with the world untouched although a VFS change
is waiting. -/
theorem debounce_trigger_lost_cex :
    lockRun [.trigger, .trigger, .finish] =
      { syncLock := false, inFlight := 0, started := 1 } ∧
    pushVfsToLocal noFaults c8CexWorld = (c8CexWorld, emptyLog) :=
  ⟨rfl, rfl⟩

/-! ## C7: lifecycle transitions, counterexample -/

/-- C7 counterexample: from the initial `disconnected` state, a
`connect()` whose directory picker rejects with a non-abort error
performs the transition `disconnected → error`, which is absent from the
claimed transition list. -/
theorem lifecycle_disconnected_to_error_cex :
    opTransitions baseWorld (.connectOp noFaults (.err "TypeError")) =
      [(.disconnected, .error)] ∧
    specAllowed (.disconnected, .error) = false :=
  ⟨rfl, rfl⟩

/-! ## C1: initial-pass failure handling, counterexample -/

/-- C1 counterexample: an I/O failure during the initial reconciliation
pass (reading local `a.txt` throws) does not abort the pass — the
per-path handler logs and continues, and `connect()` finishes in state
`connected`, not `error`. -/
theorem initial_sync_per_path_failure_cex :
    (connect c1CexFaults .ok c1CexWorld).syncState = .connected := by
  decide

/-! ## C2: steady-state failure classification, counterexample -/

/-- C2 counterexample: a `NotAllowedError` (PermissionRevoked) thrown by
the local write of `a.txt` inside the VFS → local pass is caught by the
per-path handler: the session stays `connected` and both loops keep
running, contradicting the claim that every PermissionRevoked failure
halts the session. -/
theorem steady_state_permission_error_swallowed_cex :
    c2CexFaults.writeLocalFault "a.txt" = some "NotAllowedError" ∧
    isPermissionError "NotAllowedError" = true ∧
    (pushVfsToLocal c2CexFaults c2CexWorld).1.syncState = .connected ∧
    (pushVfsToLocal c2CexFaults c2CexWorld).1.pollerRunning = true ∧
    (pushVfsToLocal c2CexFaults c2CexWorld).1.watcherRunning = true := by
  refine ⟨by decide, by decide, by decide, by decide, by decide⟩

/-! ## C9: path policy, counterexample -/

/-- C9 counterexample: the exclusion policy is not applied identically
on both sides — `src/node_modules/x.js` passes `shouldSkip` (first
segment `src`), so the VFS → local pass processes it and it enters the
snapshot maps, while the local walk `collectLocalPaths` prunes the
nested `node_modules` directory and never yields the path at all. -/
theorem path_policy_not_identical_cex :
    shouldSkip "src/node_modules/x.js" = false ∧
    mlookup (pushVfsToLocal noFaults c9CexWorld).1.vfsSnapshot
      "src/node_modules/x.js" = some (fnv1a [42]) ∧
    mlookup (pushVfsToLocal noFaults c9CexWorld).1.localSnapshot
      "src/node_modules/x.js" = some 0 ∧
    collectLocalPaths c9CexTree "" = [] := by
  refine ⟨by decide, by decide, by decide, ?_⟩
  simp [collectLocalPaths, c9CexTree, collectEntries, SKIP_DIRS]

/-! ## Control-plane frame lemmas -/

theorem ctrlEq_refl (a : SyncWorld) : ctrlEq a a :=
  ⟨rfl, rfl, rfl, rfl, rfl, rfl, rfl, rfl⟩

theorem ctrlEq_trans {a b c : SyncWorld} (h1 : ctrlEq a b)
    (h2 : ctrlEq b c) : ctrlEq a c := by
  obtain ⟨x1, x2, x3, x4, x5, x6, x7, x8⟩ := h1
  obtain ⟨y1, y2, y3, y4, y5, y6, y7, y8⟩ := h2
  exact ⟨x1.trans y1, x2.trans y2, x3.trans y3, x4.trans y4, x5.trans y5,
         x6.trans y6, x7.trans y7, x8.trans y8⟩

theorem initSyncLocalStep_ctrl (fm : FaultModel) (w : SyncWorld)
    (e : String × Nat) : ctrlEq (initSyncLocalStep fm w e) w := by
  unfold initSyncLocalStep
  repeat' split
  all_goals exact ⟨rfl, rfl, rfl, rfl, rfl, rfl, rfl, rfl⟩

theorem initSyncVfsStep_ctrl (fm : FaultModel) (lp : List String)
    (w : SyncWorld) (rel : String) :
    ctrlEq (initSyncVfsStep fm lp w rel) w := by
  unfold initSyncVfsStep
  repeat' split
  all_goals exact ⟨rfl, rfl, rfl, rfl, rfl, rfl, rfl, rfl⟩

theorem vfsPassStep_ctrl (fm : FaultModel)
    (acc : SyncWorld × PassLog × List String) (rel : String) :
    ctrlEq (vfsPassStep fm acc rel).1 acc.1 := by
  obtain ⟨w, log, cur⟩ := acc
  simp only [vfsPassStep]
  repeat' split
  all_goals exact ⟨rfl, rfl, rfl, rfl, rfl, rfl, rfl, rfl⟩

theorem vfsDeleteStep_ctrl (fm : FaultModel) (cur : List String)
    (acc : SyncWorld × PassLog) (rel : String) :
    ctrlEq (vfsDeleteStep fm cur acc rel).1 acc.1 := by
  obtain ⟨w, log⟩ := acc
  simp only [vfsDeleteStep]
  repeat' split
  all_goals exact ⟨rfl, rfl, rfl, rfl, rfl, rfl, rfl, rfl⟩

theorem pollPassStep_ctrl (fm : FaultModel) (acc : SyncWorld × PassLog)
    (e : String × Nat) : ctrlEq (pollPassStep fm acc e).1 acc.1 := by
  obtain ⟨w, log⟩ := acc
  simp only [pollPassStep]
  repeat' split
  all_goals exact ⟨rfl, rfl, rfl, rfl, rfl, rfl, rfl, rfl⟩

theorem foldl_ctrl {α β : Type} (proj : β → SyncWorld) (f : β → α → β)
    (hf : ∀ b a, ctrlEq (proj (f b a)) (proj b)) (l : List α) (b : β) :
    ctrlEq (proj (l.foldl f b)) (proj b) := by
  induction l generalizing b with
  | nil => exact ctrlEq_refl _
  | cons a t ih => exact ctrlEq_trans (ih (f b a)) (hf b a)

theorem initialSyncRun_fault (fm : FaultModel) (w : SyncWorld) (e : String)
    (h : fm.enumLocalFault = some e) :
    initialSyncRun fm w = (setState w .syncingInitial, some e) := by
  unfold initialSyncRun
  rw [h]

theorem initialSyncRun_ok_ctrl (fm : FaultModel) (w : SyncWorld)
    (h : fm.enumLocalFault = none) :
    ctrlEq (initialSyncRun fm w).1 (setState w .syncingInitial) ∧
    (initialSyncRun fm w).2 = none := by
  unfold initialSyncRun
  rw [h]
  constructor
  · exact ctrlEq_trans
      (foldl_ctrl id _ (fun b a => initSyncVfsStep_ctrl fm _ b a) _ _)
      (foldl_ctrl id _ (fun b a => initSyncLocalStep_ctrl fm b a) _ _)
  · rfl

theorem connect_ok_eq (fm : FaultModel) (w : SyncWorld)
    (hsupp : w.isSupported = true) :
    connect fm .ok w =
      match initialSyncRun fm { w with hasHandle := true, syncError := "" } with
      | (w2, some msg) =>
          { setState w2 .error with syncError := msg, hasHandle := false }
      | (w2, none) =>
          setState { w2 with watcherRunning := true, pollerRunning := true }
            .connected := by
  unfold connect
  rw [hsupp]
  rfl

theorem pushVfsToLocal_ctrl_core (fm : FaultModel) (wL : SyncWorld) :
    ctrlEq ((((wL.vfs.map Prod.fst).foldl (vfsPassStep fm)
        (wL, emptyLog, [])).1.vfsSnapshot.map Prod.fst).foldl
      (vfsDeleteStep fm
        ((wL.vfs.map Prod.fst).foldl (vfsPassStep fm) (wL, emptyLog, [])).2.2)
      (((wL.vfs.map Prod.fst).foldl (vfsPassStep fm) (wL, emptyLog, [])).1,
       ((wL.vfs.map Prod.fst).foldl (vfsPassStep fm) (wL, emptyLog, [])).2.1)).1
      wL :=
  ctrlEq_trans
    (foldl_ctrl Prod.fst _ (fun b a => vfsDeleteStep_ctrl fm _ b a) _ _)
    (foldl_ctrl (fun acc => acc.1) _ (fun b a => vfsPassStep_ctrl fm b a) _ _)

/-! ## C1: initial-pass failure handling (amended) -/

/-- C1 (amended): only a failure of the local directory walk aborts the
initial reconciliation pass; `connect()` then transitions to `error`,
records the message, clears the directory handle and starts no loops,
but the snapshot maps are left exactly as they were — not cleared, so
stale entries survive into the next `connect()`.  When the walk
succeeds the pass always completes: per-path read/write failures are
logged and skipped, and `connect()` ends in `connected`. -/
theorem initial_sync_failure_handling (w : SyncWorld) (fm : FaultModel)
    (hsupp : w.isSupported = true) :
    (∀ e, fm.enumLocalFault = some e →
      (connect fm .ok w).syncState = .error ∧
      (connect fm .ok w).syncError = e ∧
      (connect fm .ok w).hasHandle = false ∧
      (connect fm .ok w).pollerRunning = w.pollerRunning ∧
      (connect fm .ok w).watcherRunning = w.watcherRunning ∧
      (connect fm .ok w).vfsSnapshot = w.vfsSnapshot ∧
      (connect fm .ok w).localSnapshot = w.localSnapshot) ∧
    (fm.enumLocalFault = none →
      (connect fm .ok w).syncState = .connected) := by
  rw [connect_ok_eq fm w hsupp]
  constructor
  · intro e he
    rw [initialSyncRun_fault fm _ e he]
    exact ⟨rfl, rfl, rfl, rfl, rfl, rfl, rfl⟩
  · intro h
    have h2 := (initialSyncRun_ok_ctrl fm
      { w with hasHandle := true, syncError := "" } h).2
    cases hir : initialSyncRun fm { w with hasHandle := true, syncError := "" } with
    | mk w2 r =>
        rw [hir] at h2
        cases h2
        rfl

/-- C1 witness: a local-walk failure aborts connect() into `error` while
the stale snapshot maps survive, and the same world with no faults
connects cleanly. -/
theorem initial_sync_failure_handling_witness :
    (connect c1WitFaults .ok c1WitWorld).syncState = .error ∧
    (connect c1WitFaults .ok c1WitWorld).vfsSnapshot = c1WitWorld.vfsSnapshot ∧
    (connect noFaults .ok c1WitWorld).syncState = .connected := by
  refine ⟨?_, ?_, ?_⟩
  · exact ((initial_sync_failure_handling c1WitWorld c1WitFaults rfl).1
      "NotReadableError" rfl).1
  · exact ((initial_sync_failure_handling c1WitWorld c1WitFaults rfl).1
      "NotReadableError" rfl).2.2.2.2.2.1
  · exact (initial_sync_failure_handling c1WitWorld noFaults rfl).2 rfl

/-! ## C2: steady-state failure classification (amended) -/

/-- C2 (amended): permission failures end the session only when thrown
at pass level, and the only pass-level throw source is the local
directory walk in the poller: a permission error there transitions to
`error` and stops both loops; a non-permission error there aborts the
pass silently with no state change; per-path failures of any
classification (the only failures the VFS → local pass can observe,
since the VFS walk swallows its own errors) are logged and skipped and
never change the state or stop the loops. -/
theorem steady_state_error_policy (w : SyncWorld) (fm : FaultModel) :
    (∀ e, fm.enumLocalFault = some e → isPermissionError e = true →
      w.syncLock = false → w.hasHandle = true →
      (runLocalPoll fm w).1.syncState = .error ∧
      (runLocalPoll fm w).1.pollerRunning = false ∧
      (runLocalPoll fm w).1.watcherRunning = false) ∧
    (∀ e, fm.enumLocalFault = some e → isPermissionError e = false →
      (runLocalPoll fm w).1.syncState = w.syncState ∧
      (runLocalPoll fm w).1.pollerRunning = w.pollerRunning ∧
      (runLocalPoll fm w).1.watcherRunning = w.watcherRunning ∧
      (runLocalPoll fm w).2 = emptyLog) ∧
    (fm.enumLocalFault = none →
      (runLocalPoll fm w).1.syncState = w.syncState ∧
      (runLocalPoll fm w).1.pollerRunning = w.pollerRunning ∧
      (runLocalPoll fm w).1.watcherRunning = w.watcherRunning) ∧
    ((pushVfsToLocal fm w).1.syncState = w.syncState ∧
     (pushVfsToLocal fm w).1.pollerRunning = w.pollerRunning ∧
     (pushVfsToLocal fm w).1.watcherRunning = w.watcherRunning) := by
  refine ⟨?_, ?_, ?_, ?_⟩
  · intro e he hperm hlock hh
    unfold runLocalPoll
    rw [hlock, hh, he]
    simp only [Bool.false_or, Bool.not_true]
    unfold handleFsError
    rw [hperm]
    exact ⟨rfl, rfl, rfl⟩
  · intro e he hperm
    unfold runLocalPoll
    by_cases hg : (w.syncLock || !w.hasHandle) = true
    · rw [if_pos hg]
      exact ⟨rfl, rfl, rfl, rfl⟩
    · rw [if_neg hg, he]
      unfold handleFsError
      dsimp only
      rw [hperm]
      simp
  · intro h
    unfold runLocalPoll
    by_cases hg : (w.syncLock || !w.hasHandle) = true
    · rw [if_pos hg]
      exact ⟨rfl, rfl, rfl⟩
    · rw [if_neg hg, h]
      have hc := foldl_ctrl Prod.fst (pollPassStep fm)
        (fun b a => pollPassStep_ctrl fm b a)
        (localEnumeration { w with syncLock := true })
        ({ w with syncLock := true }, emptyLog)
      exact ⟨hc.1, hc.2.2.2.1, hc.2.2.2.2.1⟩
  · unfold pushVfsToLocal
    by_cases hg : (w.syncLock || !w.hasHandle) = true
    · rw [if_pos hg]
      exact ⟨rfl, rfl, rfl⟩
    · rw [if_neg hg]
      have hc := pushVfsToLocal_ctrl_core fm { w with syncLock := true }
      exact ⟨hc.1, hc.2.2.2.1, hc.2.2.2.2.1⟩

/-- C2 witness: a permission error thrown by the local walk during a
poll tick ends the session and halts both loops. -/
theorem steady_state_error_policy_witness :
    (runLocalPoll c2WitFaults connectedWorld).1.syncState = .error ∧
    (runLocalPoll c2WitFaults connectedWorld).1.pollerRunning = false ∧
    (runLocalPoll c2WitFaults connectedWorld).1.watcherRunning = false :=
  (steady_state_error_policy connectedWorld c2WitFaults).1
    "NotAllowedError" rfl rfl rfl rfl

/-! ## C7: lifecycle transitions (amended) -/

theorem pushVfsToLocal_stateLog (fm : FaultModel) (w : SyncWorld) :
    (pushVfsToLocal fm w).1.stateLog = w.stateLog := by
  unfold pushVfsToLocal
  by_cases hg : (w.syncLock || !w.hasHandle) = true
  · rw [if_pos hg]
  · rw [if_neg hg]
    exact (pushVfsToLocal_ctrl_core fm { w with syncLock := true }).2.1

theorem runLocalPoll_stateLog (fm : FaultModel) (w : SyncWorld) :
    (runLocalPoll fm w).1.stateLog = w.stateLog ∨
    (runLocalPoll fm w).1.stateLog = w.stateLog ++ [SyncState.error] := by
  unfold runLocalPoll
  by_cases hg : (w.syncLock || !w.hasHandle) = true
  · rw [if_pos hg]
    left
    rfl
  · rw [if_neg hg]
    cases he : fm.enumLocalFault with
    | some e =>
        dsimp only
        unfold handleFsError
        by_cases hp : isPermissionError e = true
        · rw [hp]
          right
          rfl
        · rw [Bool.not_eq_true] at hp
          rw [hp]
          left
          rfl
    | none =>
        left
        exact (foldl_ctrl Prod.fst _
          (fun b a => pollPassStep_ctrl fm b a) _ _).2.1

/-- C7 (amended): the code admits the listed transitions but does not
restrict their source states: every transition any operation can produce
has target `error` (picker failure, initial-pass abort or permission
revocation, from any state), target `syncing-initial` (connect reaching
the initial pass, from any state including `connected`), or target
`disconnected` (disconnect, from any state), while `connected` is
entered only from `syncing-initial`.  In particular `disconnected →
error` is reachable via a failing picker. -/
theorem lifecycle_transitions_of_code (w : SyncWorld) (o : SyncOp)
    (hlog : w.stateLog = []) :
    ∀ t ∈ opTransitions w o, codeAllowed t = true := by
  intro t ht
  unfold opTransitions at ht
  cases o with
  | disconnectOp =>
      have hs : (opStep w .disconnectOp).stateLog =
          w.stateLog ++ [.disconnected] := rfl
      rw [hs, hlog] at ht
      simp [chainPairs] at ht
      rw [ht]
      rfl
  | vfsPassOp fm =>
      simp only [opStep] at ht
      rw [pushVfsToLocal_stateLog fm w, hlog] at ht
      simp [chainPairs] at ht
  | pollPassOp fm =>
      simp only [opStep] at ht
      rcases runLocalPoll_stateLog fm w with hs | hs
      · rw [hs, hlog] at ht
        simp [chainPairs] at ht
      · rw [hs, hlog] at ht
        simp [chainPairs] at ht
        rw [ht]
        rfl
  | connectOp fm pr =>
      simp only [opStep] at ht
      cases hs : w.isSupported with
      | false =>
          have hw : connect fm pr w = w := by
            unfold connect
            rw [hs]
            rfl
          rw [hw, hlog] at ht
          simp [chainPairs] at ht
      | true =>
          cases pr with
          | err name =>
              by_cases hab : name = "AbortError"
              · have hw : connect fm (.err name) w = w := by
                  unfold connect
                  rw [hs, hab]
                  rfl
                rw [hw, hlog] at ht
                simp [chainPairs] at ht
              · have hw : (connect fm (.err name) w).stateLog =
                    w.stateLog ++ [SyncState.error] := by
                  unfold connect
                  rw [hs]
                  dsimp only
                  rw [if_neg hab]
                  rfl
                rw [hw, hlog] at ht
                simp [chainPairs] at ht
                rw [ht]
                rfl
          | ok =>
              rw [connect_ok_eq fm w hs] at ht
              cases he : fm.enumLocalFault with
              | some e =>
                  rw [initialSyncRun_fault fm
                    { w with hasHandle := true, syncError := "" } e he] at ht
                  have hsl : ({ setState
                      (setState { w with hasHandle := true, syncError := "" }
                        .syncingInitial) .error with
                      syncError := e, hasHandle := false } : SyncWorld).stateLog =
                      w.stateLog ++ [SyncState.syncingInitial] ++
                        [SyncState.error] := rfl
                  rw [hsl, hlog] at ht
                  simp [chainPairs] at ht
                  rcases ht with ht | ht <;> rw [ht] <;> rfl
              | none =>
                  have hctrl := initialSyncRun_ok_ctrl fm
                    { w with hasHandle := true, syncError := "" } he
                  cases hir : initialSyncRun fm
                      { w with hasHandle := true, syncError := "" } with
                  | mk w2 r =>
                      rw [hir] at hctrl ht
                      cases hctrl.2
                      have hsl : (setState { w2 with
                          watcherRunning := true, pollerRunning := true }
                          .connected).stateLog =
                          w2.stateLog ++ [SyncState.connected] := rfl
                      rw [hsl, hctrl.1.2.1] at ht
                      have hsl2 : (setState
                          { w with hasHandle := true, syncError := "" }
                          .syncingInitial).stateLog =
                          w.stateLog ++ [SyncState.syncingInitial] := rfl
                      rw [hsl2, hlog] at ht
                      simp [chainPairs] at ht
                      rcases ht with ht | ht <;> rw [ht] <;> rfl

/-- C7 witness: the amended transition relation at a concrete operation
(disconnect from the initial state). -/
theorem lifecycle_transitions_of_code_witness :
    codeAllowed (SyncState.disconnected, SyncState.disconnected) = true :=
  lifecycle_transitions_of_code baseWorld .disconnectOp rfl
    (.disconnected, .disconnected) (by decide)

/-! ## Lookup stability lemmas for the pass loops -/

theorem contains_false_of_not_mem {l : List String} {x : String}
    (h : x ∉ l) : l.contains x = false := by
  cases hc : l.contains x with
  | false => rfl
  | true => exact absurd (List.mem_of_elem_eq_true hc) h

theorem contains_true_of_mem {l : List String} {x : String}
    (h : x ∈ l) : l.contains x = true :=
  List.elem_eq_true_of_mem h

theorem handleFsError_vfs (w : SyncWorld) (e : String) :
    (handleFsError w e).vfs = w.vfs := by
  unfold handleFsError
  split <;> rfl

theorem vfsPassStep_lookup_ne (fm : FaultModel)
    (acc : SyncWorld × PassLog × List String) (q rel : String)
    (hne : q ≠ rel) :
    mlookup (vfsPassStep fm acc q).1.localStore rel =
      mlookup acc.1.localStore rel ∧
    mlookup (vfsPassStep fm acc q).1.vfsSnapshot rel =
      mlookup acc.1.vfsSnapshot rel ∧
    mlookup (vfsPassStep fm acc q).1.localSnapshot rel =
      mlookup acc.1.localSnapshot rel := by
  obtain ⟨w, log, cur⟩ := acc
  simp only [vfsPassStep]
  repeat' split
  all_goals refine ⟨?_, ?_, ?_⟩
  all_goals simp [mlookup_mset_ne, hne]

theorem vfsPassStep_cur (fm : FaultModel)
    (acc : SyncWorld × PassLog × List String) (q : String) :
    (vfsPassStep fm acc q).2.2 = acc.2.2 ∨
    (vfsPassStep fm acc q).2.2 = acc.2.2 ++ [q] := by
  obtain ⟨w, log, cur⟩ := acc
  simp only [vfsPassStep]
  repeat' split
  all_goals first
  | (left; rfl)
  | (right; rfl)

theorem vfsPass_cur_mem (fm : FaultModel) (l : List String)
    (acc : SyncWorld × PassLog × List String) :
    ∀ x ∈ (l.foldl (vfsPassStep fm) acc).2.2, x ∈ acc.2.2 ∨ x ∈ l := by
  induction l generalizing acc with
  | nil => exact fun x hx => Or.inl hx
  | cons a t ih =>
      intro x hx
      rcases ih (vfsPassStep fm acc a) x hx with h | h
      · rcases vfsPassStep_cur fm acc a with hc | hc
        · rw [hc] at h
          exact Or.inl h
        · rw [hc] at h
          rcases List.mem_append.mp h with h2 | h2
          · exact Or.inl h2
          · right
            simp at h2
            simp [h2]
      · right
        simp [h]

theorem vfsDeleteStep_preserves_none (fm : FaultModel) (cur : List String)
    (acc : SyncWorld × PassLog) (q rel : String)
    (h1 : mlookup acc.1.localStore rel = none)
    (h2 : mlookup acc.1.vfsSnapshot rel = none)
    (h3 : mlookup acc.1.localSnapshot rel = none) :
    mlookup (vfsDeleteStep fm cur acc q).1.localStore rel = none ∧
    mlookup (vfsDeleteStep fm cur acc q).1.vfsSnapshot rel = none ∧
    mlookup (vfsDeleteStep fm cur acc q).1.localSnapshot rel = none := by
  obtain ⟨w, log⟩ := acc
  simp only [vfsDeleteStep]
  repeat' split
  all_goals refine ⟨?_, ?_, ?_⟩
  all_goals first
  | exact h1
  | exact h2
  | exact h3
  | exact mlookup_mdel_none _ _ _ h1
  | exact mlookup_mdel_none _ _ _ h2
  | exact mlookup_mdel_none _ _ _ h3

theorem vfsDeleteStep_deletes (fm : FaultModel) (cur : List String)
    (acc : SyncWorld × PassLog) (rel : String)
    (hcur : cur.contains rel = false)
    (hrm : fm.removeLocalFault rel = none) :
    mlookup (vfsDeleteStep fm cur acc rel).1.localStore rel = none ∧
    mlookup (vfsDeleteStep fm cur acc rel).1.vfsSnapshot rel = none ∧
    mlookup (vfsDeleteStep fm cur acc rel).1.localSnapshot rel = none := by
  obtain ⟨w, log⟩ := acc
  simp only [vfsDeleteStep, hcur, hrm]
  exact ⟨mlookup_mdel_self _ _, mlookup_mdel_self _ _, mlookup_mdel_self _ _⟩

theorem vfsDelete_fold_deletes (fm : FaultModel) (cur : List String)
    (l : List String) (acc : SyncWorld × PassLog) (rel : String)
    (hrel : rel ∈ l) (hcur : cur.contains rel = false)
    (hrm : fm.removeLocalFault rel = none) :
    mlookup ((l.foldl (vfsDeleteStep fm cur) acc).1.localStore) rel = none ∧
    mlookup ((l.foldl (vfsDeleteStep fm cur) acc).1.vfsSnapshot) rel = none ∧
    mlookup ((l.foldl (vfsDeleteStep fm cur) acc).1.localSnapshot) rel = none := by
  induction l generalizing acc with
  | nil => simp at hrel
  | cons a t ih =>
      by_cases ha : rel ∈ t
      · exact ih (vfsDeleteStep fm cur acc a) ha
      · have ha2 : a = rel := by
          rcases List.mem_cons.mp hrel with h | h
          · exact h.symm
          · exact absurd h ha
        rw [List.foldl_cons, ha2]
        exact foldl_preserve (vfsDeleteStep fm cur)
          (fun b =>
            mlookup b.1.localStore rel = none ∧
            mlookup b.1.vfsSnapshot rel = none ∧
            mlookup b.1.localSnapshot rel = none)
          t (vfsDeleteStep fm cur acc rel)
          (vfsDeleteStep_deletes fm cur acc rel hcur hrm)
          (fun b x _ hb =>
            vfsDeleteStep_preserves_none fm cur b x rel hb.1 hb.2.1 hb.2.2)

theorem pollPassStep_vfs_ne_none (fm : FaultModel)
    (acc : SyncWorld × PassLog) (e : String × Nat) (rel : String)
    (h : mlookup acc.1.vfs rel ≠ none) :
    mlookup (pollPassStep fm acc e).1.vfs rel ≠ none := by
  obtain ⟨w, log⟩ := acc
  simp only [pollPassStep]
  repeat' split
  all_goals first
  | exact h
  | (by_cases hk : e.1 = rel
     · subst hk
       rw [mlookup_mset_self]
       simp
     · rw [mlookup_mset_ne _ _ _ _ hk]
       exact h)

theorem pushVfs_body_deletes (wL : SyncWorld) (rel : String) (h : Nat)
    (hsnap : mlookup wL.vfsSnapshot rel = some h)
    (hnone : mlookup wL.vfs rel = none) :
    let r1 := (wL.vfs.map Prod.fst).foldl (vfsPassStep noFaults)
      (wL, emptyLog, [])
    mlookup (((r1.1.vfsSnapshot.map Prod.fst).foldl
      (vfsDeleteStep noFaults r1.2.2) (r1.1, r1.2.1)).1.localStore) rel = none ∧
    mlookup (((r1.1.vfsSnapshot.map Prod.fst).foldl
      (vfsDeleteStep noFaults r1.2.2) (r1.1, r1.2.1)).1.vfsSnapshot) rel = none ∧
    mlookup (((r1.1.vfsSnapshot.map Prod.fst).foldl
      (vfsDeleteStep noFaults r1.2.2) (r1.1, r1.2.1)).1.localSnapshot) rel = none := by
  intro r1
  have hmem : rel ∉ wL.vfs.map Prod.fst :=
    not_mem_keys_of_mlookup_none _ _ hnone
  have hstable : mlookup r1.1.localStore rel = mlookup wL.localStore rel ∧
      mlookup r1.1.vfsSnapshot rel = some h ∧
      mlookup r1.1.localSnapshot rel = mlookup wL.localSnapshot rel :=
    foldl_preserve (vfsPassStep noFaults)
      (fun acc =>
        mlookup acc.1.localStore rel = mlookup wL.localStore rel ∧
        mlookup acc.1.vfsSnapshot rel = some h ∧
        mlookup acc.1.localSnapshot rel = mlookup wL.localSnapshot rel)
      (wL.vfs.map Prod.fst) (wL, emptyLog, [])
      ⟨rfl, hsnap, rfl⟩
      (fun b a ha hb => by
        have hne : a ≠ rel := fun heq => hmem (heq ▸ ha)
        have hs := vfsPassStep_lookup_ne noFaults b a rel hne
        exact ⟨hs.1.trans hb.1, hs.2.1.trans hb.2.1, hs.2.2.trans hb.2.2⟩)
  have hkey : rel ∈ r1.1.vfsSnapshot.map Prod.fst :=
    mem_keys_of_mlookup_some _ _ h hstable.2.1
  have hcur : r1.2.2.contains rel = false := by
    apply contains_false_of_not_mem
    intro hx
    rcases vfsPass_cur_mem noFaults (wL.vfs.map Prod.fst)
        (wL, emptyLog, []) rel hx with h2 | h2
    · simp at h2
    · exact hmem h2
  exact vfsDelete_fold_deletes noFaults r1.2.2
    (r1.1.vfsSnapshot.map Prod.fst) (r1.1, r1.2.1) rel hkey hcur rfl

/-! ## C4: deletion asymmetry -/

/-- C4: deletion propagation is one-directional: a path recorded in
`vfsSnapshot` but absent from the VFS enumeration is removed from the
local store and purged from both snapshot maps by the VFS → local pass,
while the local → VFS pass never removes a VFS entry, whatever failures
occur. -/
theorem deletion_propagation_one_directional (w : SyncWorld)
    (hlock : w.syncLock = false) (hh : w.hasHandle = true) :
    (∀ rel h, mlookup w.vfsSnapshot rel = some h →
      mlookup w.vfs rel = none →
      mlookup (pushVfsToLocal noFaults w).1.localStore rel = none ∧
      mlookup (pushVfsToLocal noFaults w).1.vfsSnapshot rel = none ∧
      mlookup (pushVfsToLocal noFaults w).1.localSnapshot rel = none) ∧
    (∀ fm rel, mlookup w.vfs rel ≠ none →
      mlookup (runLocalPoll fm w).1.vfs rel ≠ none) := by
  have hg : (w.syncLock || !w.hasHandle) = false := by
    rw [hlock, hh]
    rfl
  constructor
  · intro rel h hsnap hnone
    unfold pushVfsToLocal
    rw [hg]
    simp only [Bool.false_eq_true, if_false]
    exact pushVfs_body_deletes { w with syncLock := true } rel h hsnap hnone
  · intro fm rel hsome
    unfold runLocalPoll
    rw [hg]
    simp only [Bool.false_eq_true, if_false]
    cases he : fm.enumLocalFault with
    | some e =>
        dsimp only
        rw [handleFsError_vfs]
        exact hsome
    | none =>
        dsimp only
        exact foldl_preserve (pollPassStep fm)
          (fun acc => mlookup acc.1.vfs rel ≠ none)
          (localEnumeration { w with syncLock := true })
          ({ w with syncLock := true }, emptyLog) hsome
          (fun b a _ hb => pollPassStep_vfs_ne_none fm b a rel hb)

/-- C4 witness: deleting `b.txt` from the VFS removes it locally and
purges both snapshot maps. -/
theorem deletion_propagation_one_directional_witness :
    mlookup (pushVfsToLocal noFaults c4WitWorld).1.localStore "b.txt" = none ∧
    mlookup (pushVfsToLocal noFaults c4WitWorld).1.vfsSnapshot "b.txt" = none ∧
    mlookup (pushVfsToLocal noFaults c4WitWorld).1.localSnapshot "b.txt" = none := by
  have h := (deletion_propagation_one_directional c4WitWorld rfl rfl).1
    "b.txt" 7 (by decide) (by decide)
  exact ⟨h.1, h.2.1, h.2.2⟩

/-! ## C5: echo suppression in the local poller -/

theorem localEnumeration_keys (w : SyncWorld) :
    (localEnumeration w).map Prod.fst = w.localStore.map Prod.fst := by
  unfold localEnumeration
  rw [List.map_map]
  rfl

theorem pollPassStep_localStore (fm : FaultModel) (acc : SyncWorld × PassLog)
    (e : String × Nat) :
    (pollPassStep fm acc e).1.localStore = acc.1.localStore := by
  obtain ⟨w, log⟩ := acc
  simp only [pollPassStep]
  repeat' split
  all_goals rfl

theorem pollPassStep_lookup_ne (fm : FaultModel) (acc : SyncWorld × PassLog)
    (e : String × Nat) (rel : String) (hne : e.1 ≠ rel) :
    mlookup (pollPassStep fm acc e).1.vfs rel = mlookup acc.1.vfs rel ∧
    mlookup (pollPassStep fm acc e).1.vfsSnapshot rel =
      mlookup acc.1.vfsSnapshot rel ∧
    mlookup (pollPassStep fm acc e).1.localSnapshot rel =
      mlookup acc.1.localSnapshot rel := by
  obtain ⟨w, log⟩ := acc
  simp only [pollPassStep]
  repeat' split
  all_goals refine ⟨?_, ?_, ?_⟩
  all_goals simp [mlookup_mset_ne, hne]

theorem pollPassStep_vfsWrites (fm : FaultModel) (acc : SyncWorld × PassLog)
    (e : String × Nat) :
    (pollPassStep fm acc e).2.vfsWrites = acc.2.vfsWrites ∨
    (pollPassStep fm acc e).2.vfsWrites = acc.2.vfsWrites ++ [e.1] := by
  obtain ⟨w, log⟩ := acc
  simp only [pollPassStep]
  repeat' split
  all_goals first
  | (left; rfl)
  | (right; rfl)

theorem pollPassStep_echo (fm : FaultModel) (acc : SyncWorld × PassLog)
    (e : String × Nat) (f : LocalFile)
    (hskip : shouldSkip e.1 = false)
    (hts : ¬mlookup acc.1.localSnapshot e.1 = some e.2)
    (hrd : fm.readLocalFault e.1 = none)
    (hf : mlookup acc.1.localStore e.1 = some f)
    (hecho : mlookup acc.1.vfsSnapshot e.1 = some (fnv1a f.content)) :
    pollPassStep fm acc e =
      ({ acc.1 with localSnapshot := mset acc.1.localSnapshot e.1 e.2 },
       acc.2) := by
  obtain ⟨w, log⟩ := acc
  simp only [pollPassStep, hskip, Bool.false_eq_true, if_false, hrd, hf] at *
  rw [if_neg hts, if_pos hecho]

theorem pollPass_fold_echo (wL : SyncWorld) (rel : String) (f : LocalFile)
    (A B : List (String × Nat))
    (hA : ∀ e ∈ A, e.1 ≠ rel) (hB : ∀ e ∈ B, e.1 ≠ rel)
    (hf : mlookup wL.localStore rel = some f)
    (hskip : shouldSkip rel = false)
    (hts : ¬mlookup wL.localSnapshot rel = some f.lastModified)
    (hecho : mlookup wL.vfsSnapshot rel = some (fnv1a f.content)) :
    mlookup ((A ++ (rel, f.lastModified) :: B).foldl (pollPassStep noFaults)
      (wL, emptyLog)).1.localSnapshot rel = some f.lastModified ∧
    mlookup ((A ++ (rel, f.lastModified) :: B).foldl (pollPassStep noFaults)
      (wL, emptyLog)).1.vfsSnapshot rel = some (fnv1a f.content) ∧
    mlookup ((A ++ (rel, f.lastModified) :: B).foldl (pollPassStep noFaults)
      (wL, emptyLog)).1.vfs rel = mlookup wL.vfs rel ∧
    rel ∉ ((A ++ (rel, f.lastModified) :: B).foldl (pollPassStep noFaults)
      (wL, emptyLog)).2.vfsWrites := by
  rw [List.foldl_append, List.foldl_cons]
  have hacc1 := foldl_preserve (pollPassStep noFaults)
    (fun acc =>
      acc.1.localStore = wL.localStore ∧
      mlookup acc.1.localSnapshot rel = mlookup wL.localSnapshot rel ∧
      mlookup acc.1.vfsSnapshot rel = mlookup wL.vfsSnapshot rel ∧
      mlookup acc.1.vfs rel = mlookup wL.vfs rel ∧
      rel ∉ acc.2.vfsWrites)
    A (wL, emptyLog) ⟨rfl, rfl, rfl, rfl, by simp [emptyLog]⟩
    (fun b a ha hb => by
      have hne : a.1 ≠ rel := hA a ha
      have hs := pollPassStep_lookup_ne noFaults b a rel hne
      refine ⟨(pollPassStep_localStore noFaults b a).trans hb.1,
        hs.2.2.trans hb.2.1, hs.2.1.trans hb.2.2.1, hs.1.trans hb.2.2.2.1, ?_⟩
      rcases pollPassStep_vfsWrites noFaults b a with hw | hw
      · rw [hw]
        exact hb.2.2.2.2
      · rw [hw]
        intro hx
        rcases List.mem_append.mp hx with h1 | h1
        · exact hb.2.2.2.2 h1
        · simp at h1
          exact hne h1.symm)
  have hstep := pollPassStep_echo noFaults
    (A.foldl (pollPassStep noFaults) (wL, emptyLog)) (rel, f.lastModified) f
    hskip (by rw [hacc1.2.1]; exact hts) rfl
    (by rw [hacc1.1]; exact hf)
    (by rw [hacc1.2.2.1]; exact hecho)
  rw [hstep]
  exact foldl_preserve (pollPassStep noFaults)
    (fun acc =>
      mlookup acc.1.localSnapshot rel = some f.lastModified ∧
      mlookup acc.1.vfsSnapshot rel = some (fnv1a f.content) ∧
      mlookup acc.1.vfs rel = mlookup wL.vfs rel ∧
      rel ∉ acc.2.vfsWrites)
    B _
    ⟨mlookup_mset_self _ _ _,
     hacc1.2.2.1.trans hecho,
     hacc1.2.2.2.1,
     hacc1.2.2.2.2⟩
    (fun b a ha hb => by
      have hne : a.1 ≠ rel := hB a ha
      have hs := pollPassStep_lookup_ne noFaults b a rel hne
      refine ⟨hs.2.2.trans hb.1, hs.2.1.trans hb.2.1,
        hs.1.trans hb.2.2.1, ?_⟩
      rcases pollPassStep_vfsWrites noFaults b a with hw | hw
      · rw [hw]
        exact hb.2.2.2
      · rw [hw]
        intro hx
        rcases List.mem_append.mp hx with h1 | h1
        · exact hb.2.2.2 h1
        · simp at h1
          exact hne h1.symm)

/-- C5: echo suppression in the local → VFS pass: a path whose local
timestamp differs from the recorded one but whose content fingerprint
equals `vfsFingerprints[path]` gets `localTimestamps[path]` updated to
the new timestamp with no VFS write — the VFS entry and the recorded
fingerprint for that path are unchanged. -/
theorem local_poller_echo_suppression (w : SyncWorld)
    (hlock : w.syncLock = false) (hh : w.hasHandle = true)
    (hnd : (w.localStore.map Prod.fst).Nodup)
    (rel : String) (f : LocalFile)
    (hf : mlookup w.localStore rel = some f)
    (hskip : shouldSkip rel = false)
    (hts : ¬mlookup w.localSnapshot rel = some f.lastModified)
    (hecho : mlookup w.vfsSnapshot rel = some (fnv1a f.content)) :
    mlookup (runLocalPoll noFaults w).1.localSnapshot rel =
      some f.lastModified ∧
    mlookup (runLocalPoll noFaults w).1.vfsSnapshot rel =
      some (fnv1a f.content) ∧
    mlookup (runLocalPoll noFaults w).1.vfs rel = mlookup w.vfs rel ∧
    (runLocalPoll noFaults w).2.vfsWrites.contains rel = false := by
  have hg : (w.syncLock || !w.hasHandle) = false := by
    rw [hlock, hh]
    rfl
  unfold runLocalPoll
  rw [hg]
  simp only [Bool.false_eq_true, if_false]
  have hmem : (rel, f) ∈ ({ w with syncLock := true } : SyncWorld).localStore :=
    mem_of_mlookup_some _ _ _ hf
  have henum : (rel, f.lastModified) ∈
      localEnumeration { w with syncLock := true } :=
    List.mem_map.mpr ⟨(rel, f), hmem, rfl⟩
  have hndE : ((localEnumeration { w with syncLock := true }).map
      Prod.fst).Nodup := by
    rw [localEnumeration_keys]
    exact hnd
  obtain ⟨A, B, hAB, hA, hB⟩ := exists_split_of_mem_nodup
    (localEnumeration { w with syncLock := true }) rel f.lastModified henum hndE
  rw [hAB]
  have hfold := pollPass_fold_echo { w with syncLock := true } rel f A B
    hA hB hf hskip hts hecho
  exact ⟨hfold.1, hfold.2.1, hfold.2.2.1,
    contains_false_of_not_mem hfold.2.2.2⟩

/-- C5 witness: a touched local file whose bytes already match the VFS
refreshes only its recorded timestamp and performs no VFS write. -/
theorem local_poller_echo_suppression_witness :
    mlookup (runLocalPoll noFaults c5WitWorld).1.localSnapshot "a.txt" =
      some 9 ∧
    (runLocalPoll noFaults c5WitWorld).2.vfsWrites.contains "a.txt" = false := by
  have h := local_poller_echo_suppression c5WitWorld rfl rfl (by decide)
    "a.txt" ⟨9, [120]⟩ (by decide) (by decide) (by decide) (by decide)
  exact ⟨h.1, h.2.2.2⟩

/-! ## C6: idempotence of steady-state passes -/

theorem vfsPass_skip_fold (wL : SyncWorld)
    (hv : ∀ rel c, mlookup wL.vfs rel = some c →
      mlookup wL.vfsSnapshot rel = some (fnv1a c)) :
    ∀ (l : List String) (cur : List String),
      (∀ x ∈ l, mlookup wL.vfs x ≠ none) →
      l.foldl (vfsPassStep noFaults) (wL, emptyLog, cur) =
        (wL, emptyLog, cur ++ l.filter (fun p => !shouldSkip p)) := by
  intro l
  induction l with
  | nil =>
      intro cur _
      simp
  | cons a t ih =>
      intro cur hl2
      rw [List.foldl_cons]
      have ha : mlookup wL.vfs a ≠ none := hl2 a (by simp)
      by_cases hskip : shouldSkip a = true
      · have hstep : vfsPassStep noFaults (wL, emptyLog, cur) a =
            (wL, emptyLog, cur) := by
          simp only [vfsPassStep]
          rw [if_pos hskip]
        rw [hstep, ih cur (fun x hx => hl2 x (by simp [hx])),
          List.filter_cons]
        simp [hskip]
      · rw [Bool.not_eq_true] at hskip
        obtain ⟨c, hc⟩ : ∃ c, mlookup wL.vfs a = some c := by
          cases hmc : mlookup wL.vfs a with
          | none => exact absurd hmc ha
          | some c => exact ⟨c, rfl⟩
        have hsnap := hv a c hc
        have hstep : vfsPassStep noFaults (wL, emptyLog, cur) a =
            (wL, emptyLog, cur ++ [a]) := by
          simp only [vfsPassStep, hskip, Bool.false_eq_true, if_false, hc]
          rw [if_pos hsnap]
          rfl
        rw [hstep, ih (cur ++ [a]) (fun x hx => hl2 x (by simp [hx])),
          List.filter_cons]
        simp [hskip]
  
theorem vfsDelete_fold_id (fm : FaultModel) (cur : List String)
    (l : List String) (acc : SyncWorld × PassLog)
    (h : ∀ x ∈ l, cur.contains x = true) :
    l.foldl (vfsDeleteStep fm cur) acc = acc := by
  induction l with
  | nil => rfl
  | cons a t ih =>
      rw [List.foldl_cons]
      have hstep : vfsDeleteStep fm cur acc a = acc := by
        obtain ⟨w, log⟩ := acc
        simp only [vfsDeleteStep]
        rw [if_pos (h a (by simp))]
      rw [hstep]
      exact ih (fun x hx => h x (by simp [hx]))

theorem pollPass_skip_fold (wL : SyncWorld) (l : List (String × Nat))
    (h : ∀ e ∈ l, shouldSkip e.1 = true ∨
      mlookup wL.localSnapshot e.1 = some e.2) :
    l.foldl (pollPassStep noFaults) (wL, emptyLog) = (wL, emptyLog) := by
  induction l with
  | nil => rfl
  | cons a t ih =>
      rw [List.foldl_cons]
      have hstep : pollPassStep noFaults (wL, emptyLog) a = (wL, emptyLog) := by
        by_cases hsk : shouldSkip a.1 = true
        · simp only [pollPassStep]
          rw [if_pos hsk]
        · rw [Bool.not_eq_true] at hsk
          rcases h a (by simp) with hs | hs
          · exact absurd hs (by simp [hsk])
          · simp only [pollPassStep, hsk, Bool.false_eq_true, if_false]
            rw [if_pos hs]
      rw [hstep]
      exact ih (fun x hx => h x (by simp [hx]))

theorem pushVfs_body_idem (wL : SyncWorld)
    (r1 : SyncWorld × PassLog × List String)
    (hr1 : r1 = (wL.vfs.map Prod.fst).foldl (vfsPassStep noFaults)
      (wL, emptyLog, []))
    (hv : ∀ rel c, mlookup wL.vfs rel = some c →
      mlookup wL.vfsSnapshot rel = some (fnv1a c))
    (hk : ∀ rel, rel ∈ wL.vfsSnapshot.map Prod.fst →
      shouldSkip rel = false ∧ mlookup wL.vfs rel ≠ none) :
    (r1.1.vfsSnapshot.map Prod.fst).foldl (vfsDeleteStep noFaults r1.2.2)
      (r1.1, r1.2.1) = (wL, emptyLog) := by
  have h1 : r1 = (wL, emptyLog,
      [] ++ (wL.vfs.map Prod.fst).filter (fun p => !shouldSkip p)) := by
    rw [hr1]
    exact vfsPass_skip_fold wL hv (wL.vfs.map Prod.fst) []
      (fun x hx => by
        obtain ⟨v, hv2⟩ := mlookup_some_of_mem_keys _ _ hx
        simp [hv2])
  rw [h1]
  simp only [List.nil_append]
  exact vfsDelete_fold_id noFaults _ _ _
    (fun x hx => by
      obtain ⟨hsk, hvne⟩ := hk x hx
      apply contains_true_of_mem
      apply List.mem_filter.mpr
      refine ⟨?_, by simp [hsk]⟩
      by_contra hmem
      exact hvne (mlookup_none_of_not_mem_keys _ _ hmem))

/-- C6: idempotence — from a state in which both snapshot maps agree
with both stores (the situation after a completed pass with no
intervening changes), running either steady-state pass performs zero
writes and zero removals and leaves both stores and both snapshot maps
exactly as they were: every VFS path is skipped by the fingerprint
match and every local path by the timestamp match. -/
theorem steady_state_pass_idempotent (w : SyncWorld)
    (hlock : w.syncLock = false) (hh : w.hasHandle = true)
    (hv : ∀ e ∈ w.vfs, mlookup w.vfsSnapshot e.1 = some (fnv1a e.2))
    (hk : ∀ e ∈ w.vfsSnapshot, shouldSkip e.1 = false ∧
      mlookup w.vfs e.1 ≠ none)
    (hl : ∀ e ∈ w.localStore, shouldSkip e.1 = true ∨
      mlookup w.localSnapshot e.1 = some e.2.lastModified) :
    ((pushVfsToLocal noFaults w).2 = emptyLog ∧
     (pushVfsToLocal noFaults w).1.vfsSnapshot = w.vfsSnapshot ∧
     (pushVfsToLocal noFaults w).1.localSnapshot = w.localSnapshot ∧
     (pushVfsToLocal noFaults w).1.localStore = w.localStore ∧
     (pushVfsToLocal noFaults w).1.vfs = w.vfs) ∧
    ((runLocalPoll noFaults w).2 = emptyLog ∧
     (runLocalPoll noFaults w).1.vfsSnapshot = w.vfsSnapshot ∧
     (runLocalPoll noFaults w).1.localSnapshot = w.localSnapshot ∧
     (runLocalPoll noFaults w).1.localStore = w.localStore ∧
     (runLocalPoll noFaults w).1.vfs = w.vfs) := by
  have hg : (w.syncLock || !w.hasHandle) = false := by
    rw [hlock, hh]
    rfl
  have hv' : ∀ rel c,
      mlookup ({ w with syncLock := true } : SyncWorld).vfs rel = some c →
      mlookup ({ w with syncLock := true } : SyncWorld).vfsSnapshot rel =
        some (fnv1a c) :=
    fun rel c hc => hv (rel, c) (mem_of_mlookup_some _ _ _ hc)
  have hk' : ∀ rel,
      rel ∈ ({ w with syncLock := true } : SyncWorld).vfsSnapshot.map Prod.fst →
      shouldSkip rel = false ∧
      mlookup ({ w with syncLock := true } : SyncWorld).vfs rel ≠ none :=
    fun rel hmem => by
      obtain ⟨v, hv2⟩ := mlookup_some_of_mem_keys _ _ hmem
      exact hk (rel, v) (mem_of_mlookup_some _ _ _ hv2)
  constructor
  · unfold pushVfsToLocal
    rw [hg]
    simp only [Bool.false_eq_true, if_false]
    have hbody := pushVfs_body_idem { w with syncLock := true }
      ((({ w with syncLock := true } : SyncWorld).vfs.map Prod.fst).foldl
        (vfsPassStep noFaults) ({ w with syncLock := true }, emptyLog, []))
      rfl hv' hk'
    exact ⟨congrArg Prod.snd hbody,
      congrArg (fun x => x.1.vfsSnapshot) hbody,
      congrArg (fun x => x.1.localSnapshot) hbody,
      congrArg (fun x => x.1.localStore) hbody,
      congrArg (fun x => x.1.vfs) hbody⟩
  · unfold runLocalPoll
    rw [hg]
    simp only [Bool.false_eq_true, if_false]
    have hbody := pollPass_skip_fold { w with syncLock := true }
      (localEnumeration { w with syncLock := true })
      (fun e he => by
        obtain ⟨p, hp, hpe⟩ := List.mem_map.mp he
        rcases hl p hp with hs | hs
        · left
          rw [← hpe]
          exact hs
        · right
          rw [← hpe]
          exact hs)
    exact ⟨congrArg Prod.snd hbody,
      congrArg (fun x => x.1.vfsSnapshot) hbody,
      congrArg (fun x => x.1.localSnapshot) hbody,
      congrArg (fun x => x.1.localStore) hbody,
      congrArg (fun x => x.1.vfs) hbody⟩

/-- C6 witness: a fully synchronized one-file world is left untouched
by both steady-state passes. -/
theorem steady_state_pass_idempotent_witness :
    (pushVfsToLocal noFaults c6WitWorld).2 = emptyLog ∧
    (pushVfsToLocal noFaults c6WitWorld).1.vfsSnapshot =
      c6WitWorld.vfsSnapshot ∧
    (runLocalPoll noFaults c6WitWorld).2 = emptyLog ∧
    (runLocalPoll noFaults c6WitWorld).1.localSnapshot =
      c6WitWorld.localSnapshot := by
  have h := steady_state_pass_idempotent c6WitWorld rfl rfl
    (by decide) (by decide) (by decide)
  exact ⟨h.1.1, h.1.2.1, h.2.1, h.2.2.2.1⟩

/-! ## C3: initial reconciliation, local wins -/

theorem initialSyncRun_world (w : SyncWorld) :
    (initialSyncRun noFaults w).1 =
      ((w.vfs.map Prod.fst).filter (fun p => !shouldSkip p)).foldl
        (initSyncVfsStep noFaults
          (((localEnumeration w).filter (fun e => !shouldSkip e.1)).map
            Prod.fst))
        (((localEnumeration w).filter (fun e => !shouldSkip e.1)).foldl
          (initSyncLocalStep noFaults) (setState w .syncingInitial)) := rfl

theorem initSyncLocalStep_store (fm : FaultModel) (w : SyncWorld)
    (e : String × Nat) :
    (initSyncLocalStep fm w e).localStore = w.localStore ∧
    (initSyncLocalStep fm w e).clock = w.clock := by
  unfold initSyncLocalStep
  repeat' split
  all_goals exact ⟨rfl, rfl⟩

theorem initSyncLocalStep_lookup_ne (fm : FaultModel) (w : SyncWorld)
    (e : String × Nat) (p : String) (hne : e.1 ≠ p) :
    mlookup (initSyncLocalStep fm w e).vfs p = mlookup w.vfs p ∧
    mlookup (initSyncLocalStep fm w e).vfsSnapshot p =
      mlookup w.vfsSnapshot p ∧
    mlookup (initSyncLocalStep fm w e).localSnapshot p =
      mlookup w.localSnapshot p := by
  unfold initSyncLocalStep
  repeat' split
  all_goals refine ⟨?_, ?_, ?_⟩
  all_goals simp [mlookup_mset_ne, hne]

theorem initSyncLocalStep_effect (w : SyncWorld) (e : String × Nat)
    (f : LocalFile) (hf : mlookup w.localStore e.1 = some f) :
    initSyncLocalStep noFaults w e =
      { w with
          vfs := mset w.vfs e.1 f.content
          vfsSnapshot := mset w.vfsSnapshot e.1 (fnv1a f.content)
          localSnapshot := mset w.localSnapshot e.1 e.2 } := by
  simp only [initSyncLocalStep, hf]
  rfl

theorem initSyncVfsStep_vfs (fm : FaultModel) (lp : List String)
    (w : SyncWorld) (rel : String) :
    (initSyncVfsStep fm lp w rel).vfs = w.vfs := by
  unfold initSyncVfsStep
  repeat' split
  all_goals rfl

theorem initSyncVfsStep_skip (fm : FaultModel) (lp : List String)
    (w : SyncWorld) (rel : String) (h : lp.contains rel = true) :
    initSyncVfsStep fm lp w rel = w := by
  unfold initSyncVfsStep
  rw [if_pos h]

theorem initSyncVfsStep_lookup_ne (fm : FaultModel) (lp : List String)
    (w : SyncWorld) (rel p : String) (hne : rel ≠ p) :
    mlookup (initSyncVfsStep fm lp w rel).localStore p =
      mlookup w.localStore p ∧
    mlookup (initSyncVfsStep fm lp w rel).vfsSnapshot p =
      mlookup w.vfsSnapshot p ∧
    mlookup (initSyncVfsStep fm lp w rel).localSnapshot p =
      mlookup w.localSnapshot p := by
  unfold initSyncVfsStep
  repeat' split
  all_goals refine ⟨?_, ?_, ?_⟩
  all_goals simp [mlookup_mset_ne, hne]

theorem initSyncVfsStep_effect (lp : List String) (w : SyncWorld)
    (rel : String) (c : List Nat) (hcon : lp.contains rel = false)
    (hc : mlookup w.vfs rel = some c) :
    initSyncVfsStep noFaults lp w rel =
      { w with
          localStore := mset w.localStore rel ⟨w.clock, c⟩
          clock := w.clock + 1
          vfsSnapshot := mset w.vfsSnapshot rel (fnv1a c)
          localSnapshot := mset w.localSnapshot rel w.clock } := by
  simp only [initSyncVfsStep, hcon, Bool.false_eq_true, if_false, hc]
  rfl

theorem initPhase1_at_key (w0 : SyncWorld) (A B : List (String × Nat))
    (p : String) (t : Nat) (f : LocalFile)
    (_hA : ∀ e ∈ A, e.1 ≠ p) (hB : ∀ e ∈ B, e.1 ≠ p)
    (hf : mlookup w0.localStore p = some f) :
    ((A ++ (p, t) :: B).foldl (initSyncLocalStep noFaults) w0).localStore =
      w0.localStore ∧
    mlookup ((A ++ (p, t) :: B).foldl (initSyncLocalStep noFaults)
      w0).vfs p = some f.content ∧
    mlookup ((A ++ (p, t) :: B).foldl (initSyncLocalStep noFaults)
      w0).vfsSnapshot p = some (fnv1a f.content) ∧
    mlookup ((A ++ (p, t) :: B).foldl (initSyncLocalStep noFaults)
      w0).localSnapshot p = some t := by
  rw [List.foldl_append, List.foldl_cons]
  have hAkeep := foldl_preserve (initSyncLocalStep noFaults)
    (fun ww => ww.localStore = w0.localStore) A w0 rfl
    (fun b a _ hb => ((initSyncLocalStep_store noFaults b a).1).trans hb)
  have heff := initSyncLocalStep_effect
    (A.foldl (initSyncLocalStep noFaults) w0) (p, t) f
    (by rw [hAkeep]; exact hf)
  rw [heff]
  exact foldl_preserve (initSyncLocalStep noFaults)
    (fun ww =>
      ww.localStore = w0.localStore ∧
      mlookup ww.vfs p = some f.content ∧
      mlookup ww.vfsSnapshot p = some (fnv1a f.content) ∧
      mlookup ww.localSnapshot p = some t)
    B _
    ⟨hAkeep, mlookup_mset_self _ _ _, mlookup_mset_self _ _ _,
     mlookup_mset_self _ _ _⟩
    (fun b a ha hb => by
      have hne : a.1 ≠ p := hB a ha
      have hs := initSyncLocalStep_lookup_ne noFaults b a p hne
      exact ⟨((initSyncLocalStep_store noFaults b a).1).trans hb.1,
        hs.1.trans hb.2.1, hs.2.1.trans hb.2.2.1, hs.2.2.trans hb.2.2.2⟩)

theorem initPhase2_preserve_at (lp : List String) (l : List String)
    (w1 : SyncWorld) (p : String)
    (hl : ∀ q ∈ l, q = p → lp.contains p = true) :
    mlookup (l.foldl (initSyncVfsStep noFaults lp) w1).localStore p =
      mlookup w1.localStore p ∧
    mlookup (l.foldl (initSyncVfsStep noFaults lp) w1).vfs p =
      mlookup w1.vfs p ∧
    mlookup (l.foldl (initSyncVfsStep noFaults lp) w1).vfsSnapshot p =
      mlookup w1.vfsSnapshot p ∧
    mlookup (l.foldl (initSyncVfsStep noFaults lp) w1).localSnapshot p =
      mlookup w1.localSnapshot p := by
  refine foldl_preserve (initSyncVfsStep noFaults lp)
    (fun ww =>
      mlookup ww.localStore p = mlookup w1.localStore p ∧
      mlookup ww.vfs p = mlookup w1.vfs p ∧
      mlookup ww.vfsSnapshot p = mlookup w1.vfsSnapshot p ∧
      mlookup ww.localSnapshot p = mlookup w1.localSnapshot p)
    l w1 ⟨rfl, rfl, rfl, rfl⟩ (fun b q hq hb => ?_)
  by_cases hqp : q = p
  · rw [hqp, initSyncVfsStep_skip _ _ _ _ (hl q hq hqp)]
    exact hb
  · have hs := initSyncVfsStep_lookup_ne noFaults lp b q p hqp
    refine ⟨hs.1.trans hb.1, ?_, hs.2.1.trans hb.2.2.1,
      hs.2.2.trans hb.2.2.2⟩
    rw [congrArg (fun m => mlookup m p) (initSyncVfsStep_vfs noFaults lp b q)]
    exact hb.2.1

theorem initPhase2_at_key (lp : List String) (A B : List String)
    (w1 : SyncWorld) (q : String) (c : List Nat)
    (_hA : ∀ x ∈ A, x ≠ q) (hB : ∀ x ∈ B, x ≠ q)
    (hcon : lp.contains q = false)
    (hc : mlookup w1.vfs q = some c) :
    ∃ lm,
      mlookup ((A ++ q :: B).foldl (initSyncVfsStep noFaults lp)
        w1).localStore q = some ⟨lm, c⟩ ∧
      mlookup ((A ++ q :: B).foldl (initSyncVfsStep noFaults lp)
        w1).vfsSnapshot q = some (fnv1a c) ∧
      mlookup ((A ++ q :: B).foldl (initSyncVfsStep noFaults lp)
        w1).localSnapshot q = some lm := by
  rw [List.foldl_append, List.foldl_cons]
  have hAf := foldl_preserve (initSyncVfsStep noFaults lp)
    (fun ww => mlookup ww.vfs q = some c) A w1 hc
    (fun b a _ hb => by
      show mlookup (initSyncVfsStep noFaults lp b a).vfs q = some c
      rw [congrArg (fun m => mlookup m q) (initSyncVfsStep_vfs noFaults lp b a)]
      exact hb)
  have heff := initSyncVfsStep_effect lp
    (A.foldl (initSyncVfsStep noFaults lp) w1) q c hcon hAf
  rw [heff]
  refine ⟨(A.foldl (initSyncVfsStep noFaults lp) w1).clock, ?_⟩
  exact foldl_preserve (initSyncVfsStep noFaults lp)
    (fun ww =>
      mlookup ww.localStore q =
        some ⟨(A.foldl (initSyncVfsStep noFaults lp) w1).clock, c⟩ ∧
      mlookup ww.vfsSnapshot q = some (fnv1a c) ∧
      mlookup ww.localSnapshot q =
        some (A.foldl (initSyncVfsStep noFaults lp) w1).clock)
    B _
    ⟨mlookup_mset_self _ _ _, mlookup_mset_self _ _ _,
     mlookup_mset_self _ _ _⟩
    (fun b x hx hb => by
      have hne : x ≠ q := hB x hx
      have hs := initSyncVfsStep_lookup_ne noFaults lp b x q hne
      exact ⟨hs.1.trans hb.1, hs.2.1.trans hb.2.1, hs.2.2.trans hb.2.2⟩)

theorem exists_split_of_mem_nodup_list {α : Type} (l : List α) (x : α)
    (hmem : x ∈ l) (hnd : l.Nodup) :
    ∃ A B, l = A ++ x :: B ∧ x ∉ A ∧ x ∉ B := by
  obtain ⟨A, B, rfl⟩ := List.append_of_mem hmem
  rw [List.nodup_append] at hnd
  refine ⟨A, B, rfl, ?_, ?_⟩
  · intro hx
    exact hnd.2.2 hx (List.mem_cons_self x B)
  · intro hx
    exact (List.nodup_cons.mp hnd.2.1).1 hx

/-- C3: local-wins initial reconciliation: every non-excluded local path
keeps its local content in the local store, has its bytes written into
the VFS unconditionally, and has `vfsFingerprints[path]` set to the
fingerprint of the local bytes and `localTimestamps[path]` to the
enumerated timestamp; every non-excluded VFS-only path is written into
the local store with its VFS bytes and both snapshot entries
recorded. -/
theorem initial_reconciliation_local_wins (w : SyncWorld)
    (hndL : (w.localStore.map Prod.fst).Nodup)
    (hndV : (w.vfs.map Prod.fst).Nodup) :
    (∀ p f, mlookup w.localStore p = some f → shouldSkip p = false →
      mlookup (initialSyncRun noFaults w).1.localStore p = some f ∧
      mlookup (initialSyncRun noFaults w).1.vfs p = some f.content ∧
      mlookup (initialSyncRun noFaults w).1.vfsSnapshot p =
        some (fnv1a f.content) ∧
      mlookup (initialSyncRun noFaults w).1.localSnapshot p =
        some f.lastModified) ∧
    (∀ q c, mlookup w.vfs q = some c → mlookup w.localStore q = none →
      shouldSkip q = false →
      ∃ lm,
        mlookup (initialSyncRun noFaults w).1.localStore q = some ⟨lm, c⟩ ∧
        mlookup (initialSyncRun noFaults w).1.vfsSnapshot q =
          some (fnv1a c) ∧
        mlookup (initialSyncRun noFaults w).1.localSnapshot q = some lm) := by
  have hndE : ((localEnumeration w).map Prod.fst).Nodup := by
    rw [localEnumeration_keys]
    exact hndL
  have hndF : (((localEnumeration w).filter
      (fun e => !shouldSkip e.1)).map Prod.fst).Nodup :=
    List.Nodup.sublist (List.Sublist.map Prod.fst (List.filter_sublist _)) hndE
  have hlpsub : ∀ x, x ∈ ((localEnumeration w).filter
      (fun e => !shouldSkip e.1)).map Prod.fst →
      x ∈ w.localStore.map Prod.fst := by
    intro x hx
    obtain ⟨e, he, hxe⟩ := List.mem_map.mp hx
    have he2 : e ∈ localEnumeration w := List.mem_of_mem_filter he
    obtain ⟨pr, hpr, hpre⟩ := List.mem_map.mp he2
    rw [← hxe, ← hpre]
    exact List.mem_map.mpr ⟨pr, hpr, rfl⟩
  constructor
  · intro p f hf hskip
    rw [initialSyncRun_world]
    have hfL : (p, f.lastModified) ∈ (localEnumeration w).filter
        (fun e => !shouldSkip e.1) :=
      List.mem_filter.mpr
        ⟨List.mem_map.mpr ⟨(p, f), mem_of_mlookup_some _ _ _ hf, rfl⟩,
         by simp [hskip]⟩
    obtain ⟨A, B, hAB, hA, hB⟩ := exists_split_of_mem_nodup
      ((localEnumeration w).filter (fun e => !shouldSkip e.1)) p
      f.lastModified hfL hndF
    rw [hAB]
    have h1 := initPhase1_at_key (setState w .syncingInitial) A B p
      f.lastModified f hA hB hf
    have hplp : (((A ++ (p, f.lastModified) :: B)).map
        Prod.fst).contains p = true :=
      contains_true_of_mem (by simp)
    have h2 := initPhase2_preserve_at
      ((A ++ (p, f.lastModified) :: B).map Prod.fst)
      ((w.vfs.map Prod.fst).filter (fun p => !shouldSkip p))
      ((A ++ (p, f.lastModified) :: B).foldl (initSyncLocalStep noFaults)
        (setState w .syncingInitial))
      p (fun q _ hq => hplp)
    refine ⟨?_, h2.2.1.trans h1.2.1, h2.2.2.1.trans h1.2.2.1,
      h2.2.2.2.trans h1.2.2.2⟩
    rw [h2.1, congrArg (fun m => mlookup m p) h1.1]
    exact hf
  · intro q c hcv hcl hskip
    rw [initialSyncRun_world]
    have hqlp : (((localEnumeration w).filter
        (fun e => !shouldSkip e.1)).map Prod.fst).contains q = false := by
      apply contains_false_of_not_mem
      intro hx
      exact not_mem_keys_of_mlookup_none _ _ hcl (hlpsub q hx)
    have hqV : q ∈ (w.vfs.map Prod.fst).filter (fun p => !shouldSkip p) :=
      List.mem_filter.mpr
        ⟨mem_keys_of_mlookup_some _ _ _ hcv, by simp [hskip]⟩
    have hndVF : ((w.vfs.map Prod.fst).filter
        (fun p => !shouldSkip p)).Nodup :=
      List.Nodup.sublist (List.filter_sublist _) hndV
    obtain ⟨A2, B2, hAB2, hA2, hB2⟩ := exists_split_of_mem_nodup_list
      ((w.vfs.map Prod.fst).filter (fun p => !shouldSkip p)) q hqV hndVF
    rw [hAB2]
    have hc1 : mlookup (((localEnumeration w).filter
        (fun e => !shouldSkip e.1)).foldl (initSyncLocalStep noFaults)
        (setState w .syncingInitial)).vfs q = some c := by
      refine foldl_preserve (initSyncLocalStep noFaults)
        (fun ww => mlookup ww.vfs q = some c) _ _ hcv
        (fun b e he hb => ?_)
      have hne : e.1 ≠ q := by
        intro heq
        have : q ∈ ((localEnumeration w).filter
            (fun e => !shouldSkip e.1)).map Prod.fst :=
          List.mem_map.mpr ⟨e, he, heq⟩
        exact not_mem_keys_of_mlookup_none _ _ hcl (hlpsub q this)
      exact ((initSyncLocalStep_lookup_ne noFaults b e q hne).1).trans hb
    exact initPhase2_at_key _ A2 B2 _ q c
      (fun x hx heq => hA2 (heq ▸ hx)) (fun x hx heq => hB2 (heq ▸ hx))
      hqlp hc1

/-- C3 witness: with local `a.txt` = [108] and VFS `a.txt` = [118] plus
VFS-only `b.txt` = [98], the pass leaves both stores holding the local
`a.txt` bytes and mirrors `b.txt` locally. -/
theorem initial_reconciliation_local_wins_witness :
    mlookup (initialSyncRun noFaults c3WitWorld).1.vfs "a.txt" =
      some [108] ∧
    mlookup (initialSyncRun noFaults c3WitWorld).1.localStore "a.txt" =
      some ⟨5, [108]⟩ ∧
    ∃ lm, mlookup (initialSyncRun noFaults c3WitWorld).1.localStore
        "b.txt" = some ⟨lm, [98]⟩ ∧
      mlookup (initialSyncRun noFaults c3WitWorld).1.vfsSnapshot "b.txt" =
        some (fnv1a [98]) ∧
      mlookup (initialSyncRun noFaults c3WitWorld).1.localSnapshot "b.txt" =
        some lm := by
  have h := initial_reconciliation_local_wins c3WitWorld
    (by decide) (by decide)
  refine ⟨(h.1 "a.txt" ⟨5, [108]⟩ (by decide) (by decide)).2.1,
    (h.1 "a.txt" ⟨5, [108]⟩ (by decide) (by decide)).1,
    h.2 "b.txt" [98] (by decide) (by decide) (by decide)⟩

/-! ## C9: path policy (amended) -/

theorem handleFsError_snapshots (w : SyncWorld) (e : String) :
    (handleFsError w e).vfsSnapshot = w.vfsSnapshot ∧
    (handleFsError w e).localSnapshot = w.localSnapshot := by
  unfold handleFsError
  split <;> exact ⟨rfl, rfl⟩

theorem initialSyncRun_world2 (fm : FaultModel) (w : SyncWorld)
    (h : fm.enumLocalFault = none) :
    (initialSyncRun fm w).1 =
      ((w.vfs.map Prod.fst).filter (fun p => !shouldSkip p)).foldl
        (initSyncVfsStep fm
          (((localEnumeration w).filter (fun e => !shouldSkip e.1)).map
            Prod.fst))
        (((localEnumeration w).filter (fun e => !shouldSkip e.1)).foldl
          (initSyncLocalStep fm) (setState w .syncingInitial)) := by
  unfold initialSyncRun
  rw [h]
  rfl

theorem vfsPassStep_skipped_none (fm : FaultModel)
    (acc : SyncWorld × PassLog × List String) (q rel : String)
    (hrel : shouldSkip rel = true)
    (h2 : mlookup acc.1.vfsSnapshot rel = none)
    (h3 : mlookup acc.1.localSnapshot rel = none) :
    mlookup (vfsPassStep fm acc q).1.vfsSnapshot rel = none ∧
    mlookup (vfsPassStep fm acc q).1.localSnapshot rel = none := by
  by_cases hq : q = rel
  · subst hq
    obtain ⟨w, log, cur⟩ := acc
    simp only [vfsPassStep]
    rw [if_pos hrel]
    exact ⟨h2, h3⟩
  · have hs := vfsPassStep_lookup_ne fm acc q rel hq
    exact ⟨hs.2.1.trans h2, hs.2.2.trans h3⟩

theorem vfsDeleteStep_none2 (fm : FaultModel) (cur : List String)
    (acc : SyncWorld × PassLog) (q rel : String)
    (h2 : mlookup acc.1.vfsSnapshot rel = none)
    (h3 : mlookup acc.1.localSnapshot rel = none) :
    mlookup (vfsDeleteStep fm cur acc q).1.vfsSnapshot rel = none ∧
    mlookup (vfsDeleteStep fm cur acc q).1.localSnapshot rel = none := by
  obtain ⟨w, log⟩ := acc
  simp only [vfsDeleteStep]
  repeat' split
  all_goals refine ⟨?_, ?_⟩
  all_goals first
  | exact h2
  | exact h3
  | exact mlookup_mdel_none _ _ _ h2
  | exact mlookup_mdel_none _ _ _ h3

theorem pollPassStep_skipped_none (fm : FaultModel)
    (acc : SyncWorld × PassLog) (e : String × Nat) (rel : String)
    (hrel : shouldSkip rel = true)
    (h2 : mlookup acc.1.vfsSnapshot rel = none)
    (h3 : mlookup acc.1.localSnapshot rel = none) :
    mlookup (pollPassStep fm acc e).1.vfsSnapshot rel = none ∧
    mlookup (pollPassStep fm acc e).1.localSnapshot rel = none := by
  by_cases hq : e.1 = rel
  · obtain ⟨w, log⟩ := acc
    simp only [pollPassStep]
    rw [hq, if_pos hrel]
    exact ⟨h2, h3⟩
  · have hs := pollPassStep_lookup_ne fm acc e rel hq
    exact ⟨hs.2.1.trans h2, hs.2.2.trans h3⟩

theorem pushVfs_body_skipped (fm : FaultModel) (wL : SyncWorld)
    (rel : String) (r1 : SyncWorld × PassLog × List String)
    (hr1 : r1 = (wL.vfs.map Prod.fst).foldl (vfsPassStep fm)
      (wL, emptyLog, []))
    (hrel : shouldSkip rel = true)
    (h2 : mlookup wL.vfsSnapshot rel = none)
    (h3 : mlookup wL.localSnapshot rel = none) :
    mlookup ((r1.1.vfsSnapshot.map Prod.fst).foldl
      (vfsDeleteStep fm r1.2.2) (r1.1, r1.2.1)).1.vfsSnapshot rel = none ∧
    mlookup ((r1.1.vfsSnapshot.map Prod.fst).foldl
      (vfsDeleteStep fm r1.2.2) (r1.1, r1.2.1)).1.localSnapshot rel = none := by
  have hf1 : mlookup r1.1.vfsSnapshot rel = none ∧
      mlookup r1.1.localSnapshot rel = none := by
    rw [hr1]
    exact foldl_preserve (vfsPassStep fm)
      (fun acc => mlookup acc.1.vfsSnapshot rel = none ∧
        mlookup acc.1.localSnapshot rel = none)
      (wL.vfs.map Prod.fst) (wL, emptyLog, []) ⟨h2, h3⟩
      (fun b a _ hb => vfsPassStep_skipped_none fm b a rel hrel hb.1 hb.2)
  exact foldl_preserve (vfsDeleteStep fm r1.2.2)
    (fun b => mlookup b.1.vfsSnapshot rel = none ∧
      mlookup b.1.localSnapshot rel = none)
    (r1.1.vfsSnapshot.map Prod.fst) (r1.1, r1.2.1) ⟨hf1.1, hf1.2⟩
    (fun b q _ hb => vfsDeleteStep_none2 fm r1.2.2 b q rel hb.1 hb.2)

set_option maxHeartbeats 1600000 in
/-- C9 (amended): `shouldSkip(relativePath)` is true iff the path's
first segment is `vendor`, `node_modules` or `.git`; the VFS side of
every pass applies exactly this test, so a first-segment-excluded path
that is in neither snapshot map never enters either one through any
pass; the local walk `collectLocalPaths` additionally prunes
directories with excluded names at every depth, so the two sides apply
the policy identically only on first-segment exclusions. -/
theorem path_policy_exclusion :
    (∀ s, shouldSkip s = true ↔
      firstSegment s = "vendor" ∨ firstSegment s = "node_modules" ∨
      firstSegment s = ".git") ∧
    (∀ name sub rest pre, SKIP_DIRS.contains name = true →
      collectEntries ((name, FsTree.dir sub) :: rest) pre =
        collectEntries rest pre) ∧
    (∀ fm w rel, shouldSkip rel = true →
      mlookup w.vfsSnapshot rel = none →
      mlookup w.localSnapshot rel = none →
      (mlookup (pushVfsToLocal fm w).1.vfsSnapshot rel = none ∧
       mlookup (pushVfsToLocal fm w).1.localSnapshot rel = none) ∧
      (mlookup (initialSyncRun fm w).1.vfsSnapshot rel = none ∧
       mlookup (initialSyncRun fm w).1.localSnapshot rel = none) ∧
      (mlookup (runLocalPoll fm w).1.vfsSnapshot rel = none ∧
       mlookup (runLocalPoll fm w).1.localSnapshot rel = none)) := by
  refine ⟨?_, ?_, ?_⟩
  · intro s
    unfold shouldSkip SKIP_DIRS
    constructor
    · intro h
      have hm : firstSegment s ∈ ["vendor", "node_modules", ".git"] :=
        List.mem_of_elem_eq_true h
      simpa using hm
    · intro h
      apply List.elem_eq_true_of_mem
      simpa using h
  · intro name sub rest pre h
    rw [collectEntries, if_pos h]
    simp
  · intro fm w rel hrel h2 h3
    refine ⟨?_, ?_, ?_⟩
    · unfold pushVfsToLocal
      by_cases hg : (w.syncLock || !w.hasHandle) = true
      · rw [if_pos hg]
        exact ⟨h2, h3⟩
      · rw [if_neg hg]
        exact pushVfs_body_skipped fm { w with syncLock := true } rel
          ((({ w with syncLock := true } : SyncWorld).vfs.map Prod.fst).foldl
            (vfsPassStep fm) ({ w with syncLock := true }, emptyLog, []))
          rfl hrel h2 h3
    · cases he : fm.enumLocalFault with
      | some e =>
          rw [initialSyncRun_fault fm w e he]
          exact ⟨h2, h3⟩
      | none =>
          rw [initialSyncRun_world2 fm w he]
          have hp1 := foldl_preserve (initSyncLocalStep fm)
            (fun ww => mlookup ww.vfsSnapshot rel = none ∧
              mlookup ww.localSnapshot rel = none)
            ((localEnumeration w).filter (fun e => !shouldSkip e.1))
            (setState w .syncingInitial) ⟨h2, h3⟩
            (fun b e he2 hb => by
              have hsk : shouldSkip e.1 = false := by
                have := (List.mem_filter.mp he2).2
                simpa using this
              have hne : e.1 ≠ rel := by
                intro heq
                rw [heq, hrel] at hsk
                cases hsk
              have hs := initSyncLocalStep_lookup_ne fm b e rel hne
              exact ⟨hs.2.1.trans hb.1, hs.2.2.trans hb.2⟩)
          exact foldl_preserve
            (initSyncVfsStep fm
              (((localEnumeration w).filter (fun e => !shouldSkip e.1)).map
                Prod.fst))
            (fun ww => mlookup ww.vfsSnapshot rel = none ∧
              mlookup ww.localSnapshot rel = none)
            ((w.vfs.map Prod.fst).filter (fun p => !shouldSkip p))
            _ hp1
            (fun b q hq hb => by
              have hsk : shouldSkip q = false := by
                have := (List.mem_filter.mp hq).2
                simpa using this
              have hne : q ≠ rel := by
                intro heq
                rw [heq, hrel] at hsk
                cases hsk
              have hs := initSyncVfsStep_lookup_ne fm
                (((localEnumeration w).filter
                  (fun e => !shouldSkip e.1)).map Prod.fst) b q rel hne
              exact ⟨hs.2.1.trans hb.1, hs.2.2.trans hb.2⟩)
    · unfold runLocalPoll
      by_cases hg : (w.syncLock || !w.hasHandle) = true
      · rw [if_pos hg]
        exact ⟨h2, h3⟩
      · rw [if_neg hg]
        cases he : fm.enumLocalFault with
        | some e =>
            dsimp only
            constructor
            · show mlookup
                (handleFsError { w with syncLock := true } e).vfsSnapshot
                rel = none
              rw [(handleFsError_snapshots { w with syncLock := true } e).1]
              exact h2
            · show mlookup
                (handleFsError { w with syncLock := true } e).localSnapshot
                rel = none
              rw [(handleFsError_snapshots { w with syncLock := true } e).2]
              exact h3
        | none =>
            exact foldl_preserve (pollPassStep fm)
              (fun acc => mlookup acc.1.vfsSnapshot rel = none ∧
                mlookup acc.1.localSnapshot rel = none)
              (localEnumeration { w with syncLock := true })
              ({ w with syncLock := true }, emptyLog) ⟨h2, h3⟩
              (fun b a _ hb =>
                pollPassStep_skipped_none fm b a rel hrel hb.1 hb.2)

set_option maxHeartbeats 1600000 in
/-- C9 witness: `vendor/x.php` satisfies the first-segment test and
never enters the snapshot maps through any pass. -/
theorem path_policy_exclusion_witness :
    shouldSkip "vendor/x.php" = true ∧
    mlookup (pushVfsToLocal noFaults c9WitWorld).1.vfsSnapshot
      "vendor/x.php" = none ∧
    mlookup (initialSyncRun noFaults c9WitWorld).1.vfsSnapshot
      "vendor/x.php" = none ∧
    mlookup (runLocalPoll noFaults c9WitWorld).1.localSnapshot
      "vendor/x.php" = none := by
  have h1 : shouldSkip "vendor/x.php" = true :=
    (path_policy_exclusion.1 "vendor/x.php").mpr (by decide)
  have h3 := path_policy_exclusion.2.2 noFaults c9WitWorld "vendor/x.php"
    h1 (by decide) (by decide)
  exact ⟨h1, h3.1.1, h3.2.1.1, h3.2.2.2⟩
